import Mathlib

/-!
Shallow embedding of `fetch_data1.py` (GrowKaro).

The script is a single linear pipeline: credential check, geocode of a
free-text location, nearby-places search, per-place review pagination,
per-review aspect/sentiment extraction with a bounded retry loop, and a
reporting phase (CSV of business metadata, scatter plot, percentage
cross-tabulation, stacked-bar plots).

External services (Google Maps, Gemini) are modelled as oracles stored in a
`World` record; exceptions raised by service calls are modelled with
`Except String`.  Observable behaviour (prints, service calls, sleeps, the
CSV write, chart displays) is recorded in an event trace, and the process
result is an `Outcome` (explicit `sys.exit`, falling off the end, or
divergence of the unbounded pagination loop, handled by fuel).

Floats (ratings, coordinates) never enter any arithmetic in the script, so
they are represented by `Rat`; the float-to-text rendering done by pandas
when writing the CSV is an oracle `floatFmt` in the `World`.
-/

/-! ## Data model (mirrors the dict shapes used by the script) -/

/-- One candidate returned by `gmaps.geocode` (only the fields the script
reads: `geometry.location.lat/lng`, lines 68-69). -/
structure GeoCandidate where
  lat : Rat
  lng : Rat
deriving DecidableEq, Repr

/-- One element of `places_result["results"]` (fields read at lines 90-94). -/
structure PlaceResult where
  place_id : String
  name : Option String
  vicinity : Option String
  rating : Option Rat
  user_ratings_total : Option Nat
deriving DecidableEq, Repr

/-- One element of `details["result"]["reviews"]` (fields read at lines 115-116). -/
structure ReviewJson where
  text : Option String
  rating : Option Rat
deriving DecidableEq, Repr

/-- The part of a `gmaps.place` response the script reads (lines 111, 121). -/
structure DetailsPage where
  reviews : List ReviewJson
  next_page_token : Option String
deriving DecidableEq, Repr

/-- One element of `business_data` (the dict built at lines 96-101), generic
in the rating representation so that CSV lossless-ness can be stated for any
rating value type. -/
structure BusinessRowG (β : Type) where
  business : String
  rating : Option β
  reviewsCount : Nat
  address : String
deriving DecidableEq, Repr

/-- `business_data` rows as produced by the pipeline (ratings as `Rat`). -/
abbrev BusinessRow := BusinessRowG Rat

/-- One element of `reviews_data` (the dict built at lines 113-119). -/
structure ReviewRow where
  business : String
  review : String
  rating : Option Rat
  address : String
  reviewsCount : Nat
deriving DecidableEq, Repr

/-- One element of `aspect_results` (the dict built at lines 161-165). -/
structure AspectRecord where
  business : String
  aspect : String
  sentiment : String
deriving DecidableEq, Repr

/-- `place.get("name", "N/A")` etc., lines 90-101: build a `business_data` row. -/
def mkBusinessRow (p : PlaceResult) : BusinessRow :=
  { business := p.name.getD "N/A"
    rating := p.rating
    reviewsCount := p.user_ratings_total.getD 0
    address := p.vicinity.getD "N/A" }

/-- Lines 112-119: build a `reviews_data` row from a review of a business. -/
def mkReviewRow (row : BusinessRow) (rev : ReviewJson) : ReviewRow :=
  { business := row.business
    review := rev.text.getD ""
    rating := rev.rating
    address := row.address
    reviewsCount := row.reviewsCount }

/-! ## CSV cell serialization (`df_business.to_csv`, line 128)

pandas renders each cell to text and the csv writer quotes a cell exactly
when it contains a separator, quote or newline, doubling interior quotes
(QUOTE_MINIMAL).  The written file is modelled as its cell matrix: a header
row plus one list of escaped cells per data row. -/

/-- Interior-quote doubling done by the csv writer inside a quoted cell. -/
def dupQuote (c : Char) : List Char := if c = '"' then ['"', '"'] else [c]

/-- A cell must be quoted iff it contains a comma, a quote or a newline. -/
def needsQuote (s : List Char) : Bool :=
  s.any (fun c => c = ',' || c = '"' || c = '\n')

/-- csv QUOTE_MINIMAL escaping of one cell. -/
def escapeL (s : List Char) : List Char :=
  if needsQuote s then '"' :: (s.flatMap dupQuote ++ ['"']) else s

/-- String version of `escapeL`. -/
def escapeS (s : String) : String := String.mk (escapeL s.data)

/-- Undo interior-quote doubling (reader side of the csv format). -/
def unDup : List Char → List Char
  | [] => []
  | [c] => [c]
  | c :: c2 :: rest =>
    if c = '"' && c2 = '"' then '"' :: unDup rest else c :: unDup (c2 :: rest)

/-- Undo `escapeL`: strip surrounding quotes (if present) and undouble. -/
def unescapeL (s : List Char) : List Char :=
  match s with
  | [] => []
  | c :: rest => if c = '"' then unDup rest.dropLast else c :: rest

/-- String version of `unescapeL`. -/
def unescapeS (s : String) : String := String.mk (unescapeL s.data)

/-- The text of the Rating cell: empty for an absent rating (pandas NaN),
otherwise the formatted value. -/
def ratingCell (fmt : β → String) : Option β → String
  | none => ""
  | some q => fmt q

/-- The four cell texts of one business row, in column order
Business, Rating, Reviews_Count, Address (line 96-101 dict order). -/
def rawCells (fmt : β → String) (fmtN : Nat → String) (r : BusinessRowG β) :
    List String :=
  [r.business, ratingCell fmt r.rating, fmtN r.reviewsCount, r.address]

/-- One written CSV data row: the four cells, csv-escaped. -/
def serializeRow (fmt : β → String) (fmtN : Nat → String) (r : BusinessRowG β) :
    List String :=
  (rawCells fmt fmtN r).map escapeS

/-- Header written by `to_csv` (the dict keys of lines 96-101). -/
def csvHeader : List String := ["Business", "Rating", "Reviews_Count", "Address"]

/-- The persisted file `competitor_data.csv`, as its cell matrix. -/
structure CsvFile where
  header : List String
  rows : List (List String)
deriving DecidableEq, Repr

/-- The file written at line 128 from `business_data`. -/
def mkCsv (fmt : Rat → String) (rows : List BusinessRow) : CsvFile :=
  { header := csvHeader, rows := rows.map (serializeRow fmt Nat.repr) }

/-! ## Observable events -/

/-- Observable events of a run, in program order. -/
inductive Ev where
  | printMsg (s : String)
  | geocodeCall (q : String)
  | placesCall (lat lng : Rat) (radius : Nat) (typ : String)
  | detailsCall (pid : String) (tok : Option String)
  | sleepEv (n : Nat)
  | writeCsv (f : CsvFile)
  | showScatter
  | showBar (business : String)
  | geminiCall (reviewText : String) (attempt : Nat)
deriving DecidableEq, Repr

/-- Event classifier: a Gemini completion call. -/
def isGeminiEv : Ev → Bool
  | .geminiCall _ _ => true
  | _ => false

/-- Event classifier: the CSV write. -/
def isWriteEv : Ev → Bool
  | .writeCsv _ => true
  | _ => false

/-- Event classifier: the scatter-plot display. -/
def isScatterEv : Ev → Bool
  | .showScatter => true
  | _ => false

/-- Event classifier: a place-details call. -/
def isDetailsEv : Ev → Bool
  | .detailsCall _ _ => true
  | _ => false

/-! ## Sentiment extraction (`analyze_reviews_batch`, lines 26-58)

One attempt of the retry loop is one `generate_content` call; from the
loop's viewpoint an attempt either raises, returns text whose strip is
empty, returns non-empty text on which `json.loads` raises (caught by the
same `except`), or returns non-empty text parsing to a JSON object, which
the script then treats as an aspect-to-sentiment mapping. -/

/-- Outcome of one completion-call attempt, as observed by the retry loop. -/
inductive AttemptOutcome where
  | raises (e : String)
  | emptyText
  | badParse (e : String)
  | parsed (m : List (String × String))
deriving DecidableEq, Repr

/-- Is the attempt a successful parse (the `break` case, line 50)? -/
def isParsedOutcome : AttemptOutcome → Bool
  | .parsed _ => true
  | _ => false

/-- A parsed aspect-to-sentiment mapping (a JSON object, as key/value pairs). -/
abbrev AspectMap := List (String × String)

/-- The inner `for attempt in range(retries)` loop (lines 33-55) over the
remaining attempt indices: on a parse the loop breaks (no sleep); on a
raise, empty text or parse failure it prints, sleeps 1, and continues. -/
def analyzeLoop (call : String → Nat → AttemptOutcome) (t : String) :
    List Nat → List Ev × Option AspectMap
  | [] => ([], none)
  | i :: rest =>
    match call t i with
    | .parsed m => ([Ev.geminiCall t i], some m)
    | .raises e =>
      let r := analyzeLoop call t rest
      (Ev.geminiCall t i ::
         Ev.printMsg ("Attempt " ++ toString (i + 1) ++ " failed: " ++ e) ::
         Ev.sleepEv 1 :: r.1, r.2)
    | .emptyText =>
      let r := analyzeLoop call t rest
      (Ev.geminiCall t i ::
         Ev.printMsg ("Empty response, retry " ++ toString (i + 1)) ::
         Ev.sleepEv 1 :: r.1, r.2)
    | .badParse e =>
      let r := analyzeLoop call t rest
      (Ev.geminiCall t i ::
         Ev.printMsg ("Attempt " ++ toString (i + 1) ++ " failed: " ++ e) ::
         Ev.sleepEv 1 :: r.1, r.2)

/-- One review's extraction (lines 32-57): run the retry loop over attempt
indices `0 .. retries-1`; the `for`-`else` appends `{}` on exhaustion. -/
def analyzeOne (call : String → Nat → AttemptOutcome) (t : String)
    (retries : Nat) : List Ev × AspectMap :=
  let r := analyzeLoop call t (List.range retries)
  (r.1, r.2.getD [])

/-- `analyze_reviews_batch` (lines 26-58): sequential per-review loop, one
appended result per review text. -/
def analyze_reviews_batch (call : String → Nat → AttemptOutcome)
    (texts : List String) (retries : Nat) : List Ev × List AspectMap :=
  ((texts.map fun t => (analyzeOne call t retries).1).flatten,
   texts.map fun t => (analyzeOne call t retries).2)

/-- Default retry budget (`retries=3`, line 26; the call site at line 158
uses the default). -/
def defaultRetries : Nat := 3

/-! ## The main pipeline (lines 11-188)

External behaviour is packaged in a `World`.  `placesNearby` is a function
of the resolved coordinates (the script passes `f"{lat},{lng}"`);
`placeDetails` is a function of the place id and the optional continuation
token; `gemini` is a function of the review text and attempt number.
The constructors at lines 18-19 and the two `input()` calls are treated as
ambient (the post-`strip`/`lower` input values are `World` fields). -/

/-- Python truthiness of an optional string (`if not API_KEY`,
`if not next_page_token`): falsy iff absent or empty. -/
def truthy : Option String → Bool
  | none => false
  | some s => !(s == "")

/-- The external environment of one run. -/
structure World where
  mapsKey : Option String
  geminiKey : Option String
  locationInput : String
  businessType : String
  geocode : Except String (List GeoCandidate)
  placesNearby : Rat → Rat → Except String (List PlaceResult)
  placeDetails : String → Option String → Except String DetailsPage
  gemini : String → Nat → AttemptOutcome
  floatFmt : Rat → String

/-- How the process ends: explicit `sys.exit code`, falling off the end
(implicit success, exit code 0), or divergence of the unbounded
pagination loop (out of fuel in the model). -/
inductive Outcome where
  | exited (code : Nat)
  | finished
  | outOfFuel
deriving DecidableEq, Repr

/-- Lines 63-70: the resolver keeps exactly the first geocode candidate's
latitude/longitude pair (`geocode_result[0]`). -/
def resolvedCoord (gs : List GeoCandidate) : Option (Rat × Rat) :=
  match gs with
  | [] => none
  | g :: _ => some (g.lat, g.lng)

/-- The `while True` pagination loop (lines 104-124) for one place, with
fuel bounding the number of iterations (the script itself has no bound).
Returns the events emitted and: `none` when fuel ran out mid-loop,
`some (.error e)` when a details call raised, `some (.ok pages)` with the
pages received in order otherwise.  Each iteration is one details call;
a truthy continuation token leads to a 2-unit sleep and a re-call with
that token; a falsy one breaks the loop. -/
def pageLoop (pid : String) (d : Option String → Except String DetailsPage) :
    Nat → Option String → List Ev × Option (Except String (List DetailsPage))
  | 0, _ => ([], none)
  | fuel + 1, tok =>
    match d tok with
    | .error e => ([Ev.detailsCall pid tok], some (.error e))
    | .ok page =>
      if truthy page.next_page_token then
        let r := pageLoop pid d fuel page.next_page_token
        (Ev.detailsCall pid tok :: Ev.sleepEv 2 :: r.1,
         r.2.map (fun x => x.map (fun pages => page :: pages)))
      else ([Ev.detailsCall pid tok], some (.ok [page]))

/-- Lines 89-124 for one place: build its `business_data` row, run the
pagination loop starting with no token, and flatten every page's reviews
into `reviews_data` rows in order. -/
def collectPlace (w : World) (fuel : Nat) (p : PlaceResult) :
    List Ev × Option (Except String (BusinessRow × List ReviewRow)) :=
  let row := mkBusinessRow p
  let r := pageLoop p.place_id (w.placeDetails p.place_id) fuel none
  (r.1,
   r.2.map (fun x =>
     x.map (fun pages =>
       (row, (pages.flatMap (fun pg => pg.reviews)).map (mkReviewRow row)))))

/-- The `for place in results` loop (lines 89-124): accumulate the
`business_data` rows and `reviews_data` rows of all places, in discovery
order, stopping at the first divergence or raised details call. -/
def collectAll (w : World) (fuel : Nat) :
    List PlaceResult →
      List Ev × Option (Except String (List BusinessRow × List ReviewRow))
  | [] => ([], some (.ok ([], [])))
  | p :: rest =>
    match collectPlace w fuel p with
    | (evs, none) => (evs, none)
    | (evs, some (.error e)) => (evs, some (.error e))
    | (evs, some (.ok (row, revs))) =>
      match collectAll w fuel rest with
      | (evs2, none) => (evs ++ evs2, none)
      | (evs2, some (.error e)) => (evs ++ evs2, some (.error e))
      | (evs2, some (.ok (rows, revList))) =>
        (evs ++ evs2, some (.ok (row :: rows, revs ++ revList)))

/-- `pandas.Series.unique`: first-occurrence order, used for
`df_reviews["Business"].unique()` (lines 153, 177). -/
def uniqueAux (seen : List String) : List String → List String
  | [] => []
  | x :: xs =>
    if x ∈ seen then uniqueAux seen xs else x :: uniqueAux (x :: seen) xs

/-- Lines 150-165: per unique business (first-occurrence order), gather its
review texts, run `analyze_reviews_batch`, and flatten each returned
mapping's items into `aspect_results` records. -/
def extractPhase (call : String → Nat → AttemptOutcome)
    (reviews : List ReviewRow) : List Ev × List AspectRecord :=
  let bs := uniqueAux [] (reviews.map (fun r => r.business))
  let per := bs.map (fun b =>
    let texts := (reviews.filter (fun r => r.business == b)).map
      (fun r => r.review)
    let batch := analyze_reviews_batch call texts defaultRetries
    (Ev.printMsg ("\nProcessing reviews for \x27" ++ b ++ "\x27... ("
        ++ toString texts.length ++ " reviews)") :: batch.1,
     batch.2.flatMap (fun m => m.map (fun pr => AspectRecord.mk b pr.1 pr.2))))
  (Ev.printMsg "\nRunning Aspect-Based Sentiment Analysis using Gemini API..."
     :: (per.map (fun x => x.1)).flatten,
   (per.map (fun x => x.2)).flatten)

/-- Lines 168-185: if any aspect record exists, print the percentage table
header and show one stacked-bar chart per unique business present in the
summary's index; otherwise print the skip message. -/
def reportPhase (uniques : List String) (aspects : List AspectRecord) :
    List Ev :=
  match aspects with
  | [] => [Ev.printMsg "No aspect sentiment detected."]
  | _ :: _ =>
    Ev.printMsg "\n--- Aspect-Based Sentiment (%) ---" ::
      (uniques.filter
        (fun b => (aspects.map (fun a => a.business)).contains b)).map
        (fun b => Ev.showBar b)

/-- Message printed at lines 15 (missing credentials). -/
def credsErrMsg : String :=
  "Error: Please set GOOGLE_MAPS_API_KEY and GEMINI_API_KEY in environment variables."

/-- The top-level `except Exception` handler's print (line 188). -/
def catchEv (e : String) : Ev :=
  Ev.printMsg ("An unexpected error occurred: " ++ e)

/-- Message printed at line 82 before exiting when the search is empty. -/
def noPlacesMsg (w : World) : String :=
  "No places found for \x27" ++ w.businessType ++ "\x27 near \x27"
    ++ w.locationInput ++ "\x27."

/-- The whole script (lines 11-188): credential check, then the `try` block
with its four `sys.exit(1)` sites, the CSV write and scatter plot, the
extraction phase and the aspect report; any exception raised by a service
call inside the `try` reaches the top-level handler, which prints and lets
the process end normally (`SystemExit` from `sys.exit` is not an
`Exception` and is not caught). -/
def runMain (w : World) (fuel : Nat) : List Ev × Outcome :=
  if truthy w.mapsKey && truthy w.geminiKey then
    match w.geocode with
    | .error e => ([Ev.geocodeCall w.locationInput, catchEv e], .finished)
    | .ok [] =>
      ([Ev.geocodeCall w.locationInput, Ev.printMsg "Location not found."],
       .exited 1)
    | .ok (g :: _) =>
      let pre := [Ev.geocodeCall w.locationInput,
                  Ev.placesCall g.lat g.lng 2000 w.businessType]
      match w.placesNearby g.lat g.lng with
      | .error e => (pre ++ [catchEv e], .finished)
      | .ok [] => (pre ++ [Ev.printMsg (noPlacesMsg w)], .exited 1)
      | .ok (p :: ps) =>
        match collectAll w fuel (p :: ps) with
        | (evs, none) => (pre ++ evs, .outOfFuel)
        | (evs, some (.error e)) => (pre ++ evs ++ [catchEv e], .finished)
        | (evs, some (.ok (rows, reviews))) =>
          let mid := pre ++ evs ++
            [Ev.writeCsv (mkCsv w.floatFmt rows),
             Ev.printMsg "\n--- Competitor Data ---",
             Ev.printMsg "\n✅ Data saved to competitor_data.csv",
             Ev.showScatter]
          match reviews with
          | [] =>
            (mid ++ [Ev.printMsg "No reviews found for these businesses."],
             .exited 1)
          | r :: rs =>
            let ex := extractPhase w.gemini (r :: rs)
            (mid ++ ex.1 ++
               reportPhase (uniqueAux [] ((r :: rs).map (fun x => x.business)))
                 ex.2,
             .finished)
  else
    ([Ev.printMsg credsErrMsg], .exited 1)

/-! ## Aspect-sentiment percentage aggregation (lines 168-174)

`groupby(["Business","Aspect","Sentiment"]).size().unstack(fill_value=0)`
counts records per (business, aspect, sentiment); dividing by the row sum
(the total for the (business, aspect) pair) and multiplying by 100 gives
the percentage table.  Division is exact here (`Rat`); the script's float
division is the same computation up to rounding. -/

/-- Number of aspect records for a given (business, aspect, sentiment). -/
def countLabel (rs : List AspectRecord) (b a s : String) : Nat :=
  (rs.filter (fun r => r.business == b && r.aspect == a && r.sentiment == s)).length

/-- Total number of aspect records for a (business, aspect) pair: the row
sum `aspect_summary.sum(axis=1)` of the un-stacked count table. -/
def totalCount (rs : List AspectRecord) (b a : String) : Nat :=
  (rs.filter (fun r => r.business == b && r.aspect == a)).length

/-- One percentage entry of `aspect_summary_percent` (line 171):
count divided by the pair's total, times 100. -/
def percentOf (rs : List AspectRecord) (b a s : String) : Rat :=
  (countLabel rs b a s : Rat) / (totalCount rs b a : Rat) * 100

/-- The distinct sentiment labels of the table (`unstack` produces one
column per sentiment value present anywhere in the grouped frame). -/
def sentLabels (rs : List AspectRecord) : List String :=
  uniqueAux [] (rs.map (fun r => r.sentiment))

/-! ## Auxiliary definitions (trace slices, exit conditions, concrete worlds and oracles used by the development) -/

/-- A completion oracle that raises on every attempt. -/
def alwaysRaises : String → Nat → AttemptOutcome := fun _ _ => .raises "boom"

/-- A concrete aspect-record table: one pair with two sentiment labels. -/
def sampleAspects : List AspectRecord :=
  [⟨"cafe", "food", "positive"⟩, ⟨"cafe", "food", "negative"⟩,
   ⟨"cafe", "food", "positive"⟩]

/-- Rating formatter for the witness: injective, never empty, over `Bool`. -/
def boolFmt : Bool → String := fun b => if b then "5" else "1"

/-- Count formatter for the witness: unary rendering, provably injective. -/
def unaryFmt (n : Nat) : String := String.mk (List.replicate n 'a')

/-- Trace prefix of every run that passes the credential check. -/
def preTrace (w : World) (g : GeoCandidate) : List Ev :=
  [Ev.geocodeCall w.locationInput,
   Ev.placesCall g.lat g.lng 2000 w.businessType]

/-- Trace of a run up to and including the scatter plot (lines 61-142). -/
def midTrace (w : World) (g : GeoCandidate) (evs : List Ev)
    (rows : List BusinessRow) : List Ev :=
  preTrace w g ++ evs ++
    [Ev.writeCsv (mkCsv w.floatFmt rows),
     Ev.printMsg "\n--- Competitor Data ---",
     Ev.printMsg "\n✅ Data saved to competitor_data.csv",
     Ev.showScatter]

/-- The four conditions under which the script reaches a `sys.exit(1)`
call: missing credentials (lines 14-16), empty geocode result (64-66),
empty place-search result (81-83), empty collected review set (145-147). -/
def exitOneCond (w : World) (fuel : Nat) : Prop :=
  (truthy w.mapsKey && truthy w.geminiKey) = false
  ∨ ((truthy w.mapsKey && truthy w.geminiKey) = true ∧ w.geocode = .ok [])
  ∨ (∃ g gs, (truthy w.mapsKey && truthy w.geminiKey) = true
      ∧ w.geocode = .ok (g :: gs) ∧ w.placesNearby g.lat g.lng = .ok [])
  ∨ (∃ g gs p ps evs rows,
      (truthy w.mapsKey && truthy w.geminiKey) = true
      ∧ w.geocode = .ok (g :: gs)
      ∧ w.placesNearby g.lat g.lng = .ok (p :: ps)
      ∧ collectAll w fuel (p :: ps) = (evs, some (.ok (rows, []))))

/-- A world with two geocode candidates and one place with no reviews. -/
def twoCandidateWorld : World :=
  { mapsKey := some "mk"
    geminiKey := some "gk"
    locationInput := "Mumbai CST"
    businessType := "restaurant"
    geocode := .ok [⟨10, 20⟩, ⟨30, 40⟩]
    placesNearby := fun _ _ => .ok []
    placeDetails := fun _ _ => .ok ⟨[], none⟩
    gemini := fun _ _ => .emptyText
    floatFmt := fun _ => "" }

/-- Decidable equality for the `Except`-modelled service results. -/
instance {ε α : Type} [DecidableEq ε] [DecidableEq α] :
    DecidableEq (Except ε α) :=
  fun x y =>
    match x, y with
    | .error a, .error b =>
      if h : a = b then .isTrue (by rw [h]) else .isFalse (by simp [h])
    | .error _, .ok _ => .isFalse (by simp)
    | .ok _, .error _ => .isFalse (by simp)
    | .ok a, .ok b =>
      if h : a = b then .isTrue (by rw [h]) else .isFalse (by simp [h])

/-- A world whose single place has no reviews at all. -/
def noReviewsWorld : World :=
  { mapsKey := some "mk"
    geminiKey := some "gk"
    locationInput := "X"
    businessType := "cafe"
    geocode := .ok [⟨1, 2⟩]
    placesNearby := fun _ _ =>
      .ok [⟨"pid1", some "Cafe A", some "Addr 1", some 4, some 10⟩]
    placeDetails := fun _ _ => .ok ⟨[], none⟩
    gemini := fun _ _ => .emptyText
    floatFmt := fun _ => "4" }

/-- A world with one review whose extraction never yields any aspect. -/
def noAspectWorld : World :=
  { mapsKey := some "mk"
    geminiKey := some "gk"
    locationInput := "X"
    businessType := "cafe"
    geocode := .ok [⟨1, 2⟩]
    placesNearby := fun _ _ =>
      .ok [⟨"pid1", some "Cafe A", some "Addr 1", some 4, some 10⟩]
    placeDetails := fun _ _ => .ok ⟨[⟨some "meh", some 3⟩], none⟩
    gemini := fun _ _ => .emptyText
    floatFmt := fun _ => "4" }

/-- The CSV files written during a trace, in order. -/
def csvWritesOf (trace : List Ev) : List CsvFile :=
  trace.filterMap (fun e =>
    match e with
    | .writeCsv f => some f
    | _ => none)

/-- Replace the completion oracle of a world, all else unchanged. -/
def setGemini (w : World) (gem : String → Nat → AttemptOutcome) : World :=
  { w with gemini := gem }

/-- Event classifier: the fixed 2-unit inter-page sleep. -/
def isSleep2 : Ev → Bool
  | .sleepEv 2 => true
  | _ => false

/-- Checks that every details call except the first is immediately
preceded by the fixed 2-unit sleep. -/
def recallsSpaced : List Ev → Bool
  | [] => true
  | [_] => true
  | a :: b :: rest => (!isDetailsEv b || isSleep2 a) && recallsSpaced (b :: rest)

/-- A details oracle with one continuation: first page carries a token,
the token-bearing call returns the last page. -/
def dTwoPages : Option String → Except String DetailsPage := fun t =>
  match t with
  | none => .ok ⟨[], some "tok1"⟩
  | some _ => .ok ⟨[], none⟩

/-- A details oracle that always returns a truthy continuation token. -/
def dDiverge : Option String → Except String DetailsPage :=
  fun _ => .ok ⟨[], some "t"⟩

/-- A world with both credentials absent. -/
def noCredsWorld : World :=
  { mapsKey := none
    geminiKey := none
    locationInput := "X"
    businessType := "t"
    geocode := .ok []
    placesNearby := fun _ _ => .ok []
    placeDetails := fun _ _ => .ok ⟨[], none⟩
    gemini := fun _ _ => .emptyText
    floatFmt := fun _ => "" }

/-! ## Lemmas about the extraction retry loop -/

/-- The retry loop issues at most one completion call per attempt index. -/
theorem analyzeLoop_calls_le (call : String → Nat → AttemptOutcome)
    (t : String) (idxs : List Nat) :
    (analyzeLoop call t idxs).1.countP isGeminiEv ≤ idxs.length := by
  induction idxs with
  | nil => simp [analyzeLoop]
  | cons i rest ih =>
    cases h : call t i <;>
      simp [analyzeLoop, h, List.countP_cons, isGeminiEv] <;> omega

/-- If no attempt parses, the retry loop produces no mapping. -/
theorem analyzeLoop_none_of_all_fail (call : String → Nat → AttemptOutcome)
    (t : String) (idxs : List Nat)
    (hfail : ∀ i ∈ idxs, isParsedOutcome (call t i) = false) :
    (analyzeLoop call t idxs).2 = none := by
  induction idxs with
  | nil => rfl
  | cons i rest ih =>
    have hi := hfail i (List.mem_cons_self i rest)
    have hrest : ∀ j ∈ rest, isParsedOutcome (call t j) = false := by
      intro j hj; exact hfail j (List.mem_cons_of_mem i hj)
    cases h : call t i <;> simp [analyzeLoop, h, ih hrest] <;>
      simp [h, isParsedOutcome] at hi

/-- The per-review batch result at any position is the one review's result. -/
theorem batch_result_at (call : String → Nat → AttemptOutcome)
    (texts : List String) (retries : Nat) (i : Nat) (hi : i < texts.length) :
    (analyze_reviews_batch call texts retries).2[i]? =
      some (analyzeOne call (texts.get ⟨i, hi⟩) retries).2 := by
  simp [analyze_reviews_batch, List.getElem?_map, List.getElem?_eq_getElem hi]

/-- C1: for every review text, the extraction stage makes at most 3
completion-call attempts; if every attempt raises, returns empty text, or
yields unparseable text, the per-review result is an empty mapping (the
extraction stage is a total function of the attempt outcomes, so no
exception escapes it to its caller). -/
theorem c1_extraction_retry_policy
    (call : String → Nat → AttemptOutcome) (texts : List String) (i : Nat)
    (hi : i < texts.length) :
    (analyzeOne call (texts.get ⟨i, hi⟩) defaultRetries).1.countP isGeminiEv ≤ 3
    ∧ ((∀ a, a < 3 → isParsedOutcome (call (texts.get ⟨i, hi⟩) a) = false) →
        (analyze_reviews_batch call texts defaultRetries).2[i]? = some []) := by
  constructor
  · have h := analyzeLoop_calls_le call (texts.get ⟨i, hi⟩)
      (List.range defaultRetries)
    simpa [analyzeOne, defaultRetries] using h
  · intro hfail
    have hnone := analyzeLoop_none_of_all_fail call (texts.get ⟨i, hi⟩)
      (List.range 3) (by intro a ha; exact hfail a (List.mem_range.mp ha))
    rw [batch_result_at call texts defaultRetries i hi]
    rw [List.get_eq_getElem] at hnone
    simp [analyzeOne, defaultRetries, hnone]

/-- C1 witness: concrete instance with one review whose attempts all raise. -/
theorem c1_extraction_retry_policy_witness :
    (0 < ["food was great"].length)
    ∧ (analyzeOne alwaysRaises (["food was great"].get ⟨0, by decide⟩)
        defaultRetries).1.countP isGeminiEv ≤ 3
    ∧ (analyze_reviews_batch alwaysRaises ["food was great"]
        defaultRetries).2[0]? = some [] := by
  refine ⟨by decide, ?_, ?_⟩
  · exact (c1_extraction_retry_policy alwaysRaises ["food was great"] 0
      (by decide)).1
  · exact (c1_extraction_retry_policy alwaysRaises ["food was great"] 0
      (by decide)).2 (by decide)

/-- C9: the extraction stage returns exactly one result per input review,
in the same order: the result list has the input's length, the result at
position `i` is review `i`'s own result, and each review contributes its
parsed mapping on success and the empty mapping on exhaustion. -/
theorem c9_batch_length_and_attribution
    (call : String → Nat → AttemptOutcome) (texts : List String)
    (retries : Nat) :
    (analyze_reviews_batch call texts retries).2.length = texts.length
    ∧ (∀ i (hi : i < texts.length),
        (analyze_reviews_batch call texts retries).2[i]? =
          some (analyzeOne call (texts.get ⟨i, hi⟩) retries).2)
    ∧ (∀ t, (analyzeOne call t retries).2 =
        ((analyzeLoop call t (List.range retries)).2).getD []) := by
  refine ⟨by simp [analyze_reviews_batch], ?_, ?_⟩
  · intro i hi; exact batch_result_at call texts retries i hi
  · intro t; rfl

/-- C9 witness: concrete two-review batch. -/
theorem c9_batch_length_and_attribution_witness :
    (analyze_reviews_batch alwaysRaises ["a", "b"] 3).2.length = 2
    ∧ (analyze_reviews_batch alwaysRaises ["a", "b"] 3).2[1]? =
        some (analyzeOne alwaysRaises (["a", "b"].get ⟨1, by decide⟩) 3).2 := by
  refine ⟨?_, ?_⟩
  · exact (c9_batch_length_and_attribution alwaysRaises ["a", "b"] 3).1
  · exact (c9_batch_length_and_attribution alwaysRaises ["a", "b"] 3).2.1 1
      (by decide)
/-! ## Lemmas for the percentage aggregation -/

/-- Splitting a count along a Boolean refinement. -/
theorem countP_split (l : List α) (P Q : α → Bool) :
    l.countP P =
      l.countP (fun x => P x && Q x) + l.countP (fun x => P x && !Q x) := by
  induction l with
  | nil => simp
  | cons a l ih =>
    simp only [List.countP_cons, ih]
    cases hP : P a <;> cases hQ : Q a <;> simp [hP, hQ] <;> omega

/-- `uniqueAux` membership: an element is kept iff it occurs in the input
and was not already seen. -/
theorem mem_uniqueAux (l : List String) :
    ∀ (seen : List String) (a : String),
      a ∈ uniqueAux seen l ↔ a ∈ l ∧ a ∉ seen := by
  induction l with
  | nil => intro seen a; simp [uniqueAux]
  | cons x xs ih =>
    intro seen a
    by_cases hx : x ∈ seen
    · simp only [uniqueAux, if_pos hx]
      rw [ih seen a]
      constructor
      · rintro ⟨ha, hs⟩; exact ⟨List.mem_cons_of_mem x ha, hs⟩
      · rintro ⟨ha, hs⟩
        rcases List.mem_cons.mp ha with rfl | ha
        · exact absurd hx hs
        · exact ⟨ha, hs⟩
    · simp only [uniqueAux, if_neg hx, List.mem_cons]
      constructor
      · rintro (rfl | hmem)
        · exact ⟨Or.inl rfl, hx⟩
        · obtain ⟨ha, hs⟩ := (ih (x :: seen) a).mp hmem
          exact ⟨Or.inr ha, fun h => hs (List.mem_cons_of_mem x h)⟩
      · rintro ⟨rfl | ha, hs⟩
        · exact Or.inl rfl
        · by_cases hax : a = x
          · exact Or.inl hax
          · refine Or.inr ((ih (x :: seen) a).mpr ⟨ha, ?_⟩)
            intro hmem
            rcases List.mem_cons.mp hmem with h' | h'
            · exact hax h'
            · exact hs h'

/-- `uniqueAux` produces no duplicates. -/
theorem nodup_uniqueAux (l : List String) :
    ∀ seen : List String, (uniqueAux seen l).Nodup := by
  induction l with
  | nil => intro seen; simp [uniqueAux]
  | cons x xs ih =>
    intro seen
    by_cases hx : x ∈ seen
    · simpa [uniqueAux, if_pos hx] using ih seen
    · simp only [uniqueAux, if_neg hx, List.nodup_cons]
      refine ⟨fun h => ?_, ih (x :: seen)⟩
      exact ((mem_uniqueAux xs (x :: seen) x).mp h).2 (List.mem_cons_self x seen)

/-- Counting over a list of pairwise-distinct key values that covers every
counted element sums to the total count. -/
theorem sum_countP_by_key {α β : Type} [BEq β] [LawfulBEq β] (f : α → β)
    (P : α → Bool) (l : List α) (L : List β) (hnd : L.Nodup)
    (hcov : ∀ x ∈ l, P x = true → f x ∈ L) :
    (L.map (fun b => l.countP (fun x => P x && (f x == b)))).sum =
      l.countP P := by
  induction L generalizing P with
  | nil =>
    have h0 : l.countP P = 0 := by
      rw [List.countP_eq_zero]
      intro x hx hPx
      exact absurd (hcov x hx hPx) (List.not_mem_nil _)
    simp [h0]
  | cons b L' ih =>
    obtain ⟨hbL, hL'⟩ := List.nodup_cons.mp hnd
    have hmap : ∀ b' ∈ L',
        l.countP (fun x => P x && (f x == b')) =
          l.countP (fun x => (P x && !(f x == b)) && (f x == b')) := by
      intro b' hb'
      apply List.countP_congr
      intro x _
      cases hfb : (f x == b') with
      | false => simp [hfb]
      | true =>
        have hfx : f x = b' := eq_of_beq hfb
        have hbb : (f x == b) = false := by
          rw [hfx]
          exact beq_eq_false_iff_ne.mpr (fun h => hbL (h ▸ hb'))
        simp [hfb, hbb]
    have hcov' : ∀ x ∈ l, (P x && !(f x == b)) = true → f x ∈ L' := by
      intro x hx hPx
      simp only [Bool.and_eq_true, Bool.not_eq_true'] at hPx
      obtain ⟨h1, h2⟩ := hPx
      rcases List.mem_cons.mp (hcov x hx h1) with h' | h'
      · exact absurd h' (beq_eq_false_iff_ne.mp h2)
      · exact h'
    have hih := ih (fun x => P x && !(f x == b)) hL' hcov'
    calc ((b :: L').map (fun b' => l.countP (fun x => P x && (f x == b')))).sum
        = l.countP (fun x => P x && (f x == b)) +
            (L'.map (fun b' => l.countP (fun x => P x && (f x == b')))).sum := by
          simp
      _ = l.countP (fun x => P x && (f x == b)) +
            l.countP (fun x => P x && !(f x == b)) := by
          rw [List.map_congr_left hmap, hih]
      _ = l.countP P := (countP_split l P (fun x => f x == b)).symm

/-- Every sentiment label of the table covers the records of every
(business, aspect) pair, so the per-label counts sum to the pair's total. -/
theorem sum_countLabel_eq_totalCount (rs : List AspectRecord) (b a : String) :
    ((sentLabels rs).map (fun s => countLabel rs b a s)).sum =
      totalCount rs b a := by
  have hcl : ∀ s, countLabel rs b a s =
      rs.countP (fun r =>
        (r.business == b && r.aspect == a) && (r.sentiment == s)) := by
    intro s
    unfold countLabel
    rw [← List.countP_eq_length_filter]
  have htc : totalCount rs b a =
      rs.countP (fun r => r.business == b && r.aspect == a) := by
    unfold totalCount
    rw [← List.countP_eq_length_filter]
  rw [htc]
  have hkey := sum_countP_by_key (fun r : AspectRecord => r.sentiment)
    (fun r => r.business == b && r.aspect == a) rs (sentLabels rs)
    (nodup_uniqueAux _ [])
    (by
      intro x hx _
      exact (mem_uniqueAux (rs.map (fun r => r.sentiment)) [] x.sentiment).mpr
        ⟨List.mem_map_of_mem _ hx, List.not_mem_nil _⟩)
  rw [← hkey]
  congr 1
  apply List.map_congr_left
  intro s _
  exact hcl s

/-- Multiplying each summand on the right distributes over a list sum. -/
theorem list_sum_map_mul_right {β : Type} (L : List β) (f : β → Rat) (r : Rat) :
    (L.map (fun x => f x * r)).sum = (L.map f).sum * r := by
  induction L with
  | nil => simp
  | cons x xs ih => simp [ih, add_mul]

/-- C4: for every (business, aspect) pair with total sentiment-label count
T > 0, each reported percentage is the label count divided by T times 100,
and over exact arithmetic the percentages of the pair sum to exactly 100. -/
theorem c4_percentages_sum_to_100 (rs : List AspectRecord) (b a : String)
    (h : totalCount rs b a ≠ 0) :
    (∀ s, percentOf rs b a s =
      (countLabel rs b a s : Rat) / (totalCount rs b a : Rat) * 100)
    ∧ ((sentLabels rs).map (fun s => percentOf rs b a s)).sum = 100 := by
  refine ⟨fun s => rfl, ?_⟩
  have hT : ((totalCount rs b a : Nat) : Rat) ≠ 0 := Nat.cast_ne_zero.mpr h
  have hstep : ∀ s ∈ sentLabels rs, percentOf rs b a s =
      ((countLabel rs b a s : Nat) : Rat) *
        (100 / ((totalCount rs b a : Nat) : Rat)) := by
    intro s _
    unfold percentOf
    ring
  rw [List.map_congr_left hstep, list_sum_map_mul_right]
  have hcast : ((sentLabels rs).map
      (fun s => ((countLabel rs b a s : Nat) : Rat))).sum =
      ((((sentLabels rs).map (fun s => countLabel rs b a s)).sum : Nat) : Rat) := by
    rw [Nat.cast_list_sum, List.map_map]
    rfl
  rw [hcast, sum_countLabel_eq_totalCount]
  field_simp

/-- C4 witness: the concrete pair (cafe, food) has total 3 and its
percentages sum to exactly 100. -/
theorem c4_percentages_sum_to_100_witness :
    totalCount sampleAspects "cafe" "food" ≠ 0
    ∧ ((sentLabels sampleAspects).map
        (fun s => percentOf sampleAspects "cafe" "food" s)).sum = 100 :=
  ⟨by decide,
   (c4_percentages_sum_to_100 sampleAspects "cafe" "food" (by decide)).2⟩

/-! ## Lemmas for CSV cell lossless-ness -/

/-- `dupQuote` never produces an empty fragment. -/
theorem dupQuote_ne_nil (c : Char) : dupQuote c ≠ [] := by
  unfold dupQuote
  split <;> simp

/-- Undoubling inverts quote doubling. -/
theorem unDup_flatMap_dupQuote (s : List Char) :
    unDup (s.flatMap dupQuote) = s := by
  induction s with
  | nil => rfl
  | cons c rest ih =>
    rw [List.flatMap_cons]
    by_cases hc : c = '"'
    · subst hc
      rw [show dupQuote '"' = ['"', '"'] from by simp [dupQuote]]
      simp only [List.cons_append, List.nil_append]
      rw [show unDup ('"' :: '"' :: rest.flatMap dupQuote) =
            '"' :: unDup (rest.flatMap dupQuote) from by simp [unDup]]
      rw [ih]
    · rw [show dupQuote c = [c] from by simp [dupQuote, hc]]
      simp only [List.cons_append, List.nil_append]
      cases hl : rest.flatMap dupQuote with
      | nil =>
        have hr : rest = [] := by
          cases rest with
          | nil => rfl
          | cons y ys =>
            rw [List.flatMap_cons] at hl
            exact absurd (List.append_eq_nil.mp hl).1 (dupQuote_ne_nil y)
        subst hr
        simp [unDup]
      | cons x xs =>
        rw [show unDup (c :: x :: xs) = c :: unDup (x :: xs) from by
              simp [unDup, hc]]
        rw [← hl, ih]

/-- A cell containing a quote character needs quoting. -/
theorem needsQuote_of_mem_quote (cs : List Char) :
    needsQuote ('"' :: cs) = true := by
  simp [needsQuote]

/-- csv minimal escaping round-trips on every cell text. -/
theorem unescapeL_escapeL (s : List Char) : unescapeL (escapeL s) = s := by
  by_cases h : needsQuote s
  · rw [escapeL, if_pos h]
    rw [show unescapeL ('"' :: (s.flatMap dupQuote ++ ['"'])) =
          unDup ((s.flatMap dupQuote ++ ['"']).dropLast) from by
        simp [unescapeL]]
    rw [List.dropLast_concat]
    exact unDup_flatMap_dupQuote s
  · rw [escapeL, if_neg h]
    cases s with
    | nil => rfl
    | cons c cs =>
      have hc : c ≠ '"' := by
        intro hc
        subst hc
        exact h (needsQuote_of_mem_quote cs)
      simp [unescapeL, hc]

/-- String-level round-trip of cell escaping. -/
theorem unescapeS_escapeS (s : String) : unescapeS (escapeS s) = s := by
  unfold unescapeS escapeS
  rw [show (String.mk (escapeL s.data)).data = escapeL s.data from rfl]
  rw [unescapeL_escapeL]

/-- Cell escaping is injective. -/
theorem escapeS_injective : Function.Injective escapeS :=
  Function.LeftInverse.injective unescapeS_escapeS

/-- Escaping maps the empty cell to itself and nothing else to empty. -/
theorem escapeL_eq_nil_iff (s : List Char) : escapeL s = [] ↔ s = [] := by
  constructor
  · intro h
    by_cases hq : needsQuote s
    · rw [escapeL, if_pos hq] at h
      simp at h
    · rwa [escapeL, if_neg hq] at h
  · rintro rfl
    rfl

/-- A non-empty cell stays non-empty after escaping. -/
theorem escapeS_ne_empty (s : String) (h : s ≠ "") : escapeS s ≠ "" := by
  intro hcon
  apply h
  have hdata : escapeL s.data = [] := congrArg String.data hcon
  have : s.data = [] := (escapeL_eq_nil_iff s.data).mp hdata
  cases s
  simp at this
  rw [this]

/-- C8: row serialization is lossless: the csv escaping of each cell
round-trips, and whenever the rating formatter is injective and never
renders the empty string (so an absent rating's empty cell is
unambiguous) and the count formatter is injective, two business rows with
the same written CSV row are equal — every written row reconstructs,
field-for-field, the in-memory record that produced it, including an
absent (None) rating. -/
theorem c8_csv_row_lossless {β : Type} (fmt : β → String) (fmtN : Nat → String)
    (hf : Function.Injective fmt) (hne : ∀ q, fmt q ≠ "")
    (hn : Function.Injective fmtN) :
    (∀ s, unescapeS (escapeS s) = s)
    ∧ ∀ r1 r2 : BusinessRowG β,
        serializeRow fmt fmtN r1 = serializeRow fmt fmtN r2 → r1 = r2 := by
  refine ⟨unescapeS_escapeS, ?_⟩
  intro r1 r2 h
  obtain ⟨b1, rt1, n1, a1⟩ := r1
  obtain ⟨b2, rt2, n2, a2⟩ := r2
  simp only [serializeRow, rawCells, List.map_cons, List.map_nil,
    List.cons.injEq, and_true] at h
  obtain ⟨h1, h2, h3, h4⟩ := h
  have hb := escapeS_injective h1
  have hcell := escapeS_injective h2
  have hnn := hn (escapeS_injective h3)
  have ha := escapeS_injective h4
  have hrt : rt1 = rt2 := by
    cases rt1 with
    | none =>
      cases rt2 with
      | none => rfl
      | some q =>
        exact absurd (by simpa [ratingCell] using hcell.symm) (hne q)
    | some q1 =>
      cases rt2 with
      | none =>
        exact absurd (by simpa [ratingCell] using hcell) (hne q1)
      | some q2 =>
        exact congrArg some (hf (by simpa [ratingCell] using hcell))
  simp only [hb, hrt, hnn, ha]

/-- `unaryFmt` is injective. -/
theorem unaryFmt_injective : Function.Injective unaryFmt := by
  intro m n h
  have hdata : List.replicate m 'a' = List.replicate n 'a' :=
    congrArg String.data h
  simpa using congrArg List.length hdata

/-- C8 witness: the escaping round-trips on a cell needing quotes, and two
concrete rows differing only in an absent-versus-present rating are
distinguished by their serialized rows. -/
theorem c8_csv_row_lossless_witness :
    unescapeS (escapeS "Cafe Blue, Fort") = "Cafe Blue, Fort"
    ∧ (serializeRow boolFmt unaryFmt
          (⟨"A", none, 2, "X"⟩ : BusinessRowG Bool) =
        serializeRow boolFmt unaryFmt
          (⟨"A", some true, 2, "X"⟩ : BusinessRowG Bool) →
        (⟨"A", none, 2, "X"⟩ : BusinessRowG Bool) = ⟨"A", some true, 2, "X"⟩) := by
  constructor
  · exact (c8_csv_row_lossless boolFmt unaryFmt (by decide) (by decide)
      unaryFmt_injective).1 "Cafe Blue, Fort"
  · exact (c8_csv_row_lossless boolFmt unaryFmt (by decide) (by decide)
      unaryFmt_injective).2 _ _

/-! ## Branch lemmas for the main pipeline -/

/-- Missing credentials: error print and exit 1 (lines 14-16). -/
theorem runMain_no_creds (w : World) (fuel : Nat)
    (h : (truthy w.mapsKey && truthy w.geminiKey) = false) :
    runMain w fuel = ([Ev.printMsg credsErrMsg], .exited 1) := by
  simp [runMain, h]

/-- A raised geocode call reaches the top-level handler (line 187-188). -/
theorem runMain_geocode_error (w : World) (fuel : Nat) (e : String)
    (hk : (truthy w.mapsKey && truthy w.geminiKey) = true)
    (hg : w.geocode = .error e) :
    runMain w fuel =
      ([Ev.geocodeCall w.locationInput, catchEv e], .finished) := by
  simp [runMain, hk, hg]

/-- Empty geocode result: message and exit 1 (lines 64-66). -/
theorem runMain_geocode_empty (w : World) (fuel : Nat)
    (hk : (truthy w.mapsKey && truthy w.geminiKey) = true)
    (hg : w.geocode = .ok []) :
    runMain w fuel =
      ([Ev.geocodeCall w.locationInput, Ev.printMsg "Location not found."],
       .exited 1) := by
  simp [runMain, hk, hg]

/-- A raised places call reaches the top-level handler. -/
theorem runMain_places_error (w : World) (fuel : Nat) (g : GeoCandidate)
    (gs : List GeoCandidate) (e : String)
    (hk : (truthy w.mapsKey && truthy w.geminiKey) = true)
    (hg : w.geocode = .ok (g :: gs))
    (hp : w.placesNearby g.lat g.lng = .error e) :
    runMain w fuel = (preTrace w g ++ [catchEv e], .finished) := by
  simp [runMain, preTrace, hk, hg, hp]

/-- Empty places result: message and exit 1 (lines 81-83). -/
theorem runMain_places_empty (w : World) (fuel : Nat) (g : GeoCandidate)
    (gs : List GeoCandidate)
    (hk : (truthy w.mapsKey && truthy w.geminiKey) = true)
    (hg : w.geocode = .ok (g :: gs))
    (hp : w.placesNearby g.lat g.lng = .ok []) :
    runMain w fuel =
      (preTrace w g ++ [Ev.printMsg (noPlacesMsg w)], .exited 1) := by
  simp [runMain, preTrace, hk, hg, hp]

/-- Pagination out of fuel: the model's divergence case. -/
theorem runMain_out_of_fuel (w : World) (fuel : Nat) (g : GeoCandidate)
    (gs : List GeoCandidate) (p : PlaceResult) (ps : List PlaceResult)
    (evs : List Ev)
    (hk : (truthy w.mapsKey && truthy w.geminiKey) = true)
    (hg : w.geocode = .ok (g :: gs))
    (hp : w.placesNearby g.lat g.lng = .ok (p :: ps))
    (hca : collectAll w fuel (p :: ps) = (evs, none)) :
    runMain w fuel = (preTrace w g ++ evs, .outOfFuel) := by
  simp [runMain, preTrace, hk, hg, hp, hca]

/-- A raised details call reaches the top-level handler. -/
theorem runMain_details_error (w : World) (fuel : Nat) (g : GeoCandidate)
    (gs : List GeoCandidate) (p : PlaceResult) (ps : List PlaceResult)
    (evs : List Ev) (e : String)
    (hk : (truthy w.mapsKey && truthy w.geminiKey) = true)
    (hg : w.geocode = .ok (g :: gs))
    (hp : w.placesNearby g.lat g.lng = .ok (p :: ps))
    (hca : collectAll w fuel (p :: ps) = (evs, some (.error e))) :
    runMain w fuel = (preTrace w g ++ evs ++ [catchEv e], .finished) := by
  simp [runMain, preTrace, hk, hg, hp, hca]

/-- Empty collected review set: the CSV is written, the scatter plot shown,
then the message and exit 1 (lines 126-147). -/
theorem runMain_no_reviews (w : World) (fuel : Nat) (g : GeoCandidate)
    (gs : List GeoCandidate) (p : PlaceResult) (ps : List PlaceResult)
    (evs : List Ev) (rows : List BusinessRow)
    (hk : (truthy w.mapsKey && truthy w.geminiKey) = true)
    (hg : w.geocode = .ok (g :: gs))
    (hp : w.placesNearby g.lat g.lng = .ok (p :: ps))
    (hca : collectAll w fuel (p :: ps) = (evs, some (.ok (rows, [])))) :
    runMain w fuel =
      (midTrace w g evs rows ++
         [Ev.printMsg "No reviews found for these businesses."],
       .exited 1) := by
  simp [runMain, preTrace, midTrace, hk, hg, hp, hca]

/-- Non-empty review set: CSV, scatter plot, extraction and report, then
normal completion. -/
theorem runMain_with_reviews (w : World) (fuel : Nat) (g : GeoCandidate)
    (gs : List GeoCandidate) (p : PlaceResult) (ps : List PlaceResult)
    (evs : List Ev) (rows : List BusinessRow) (r : ReviewRow)
    (rs : List ReviewRow)
    (hk : (truthy w.mapsKey && truthy w.geminiKey) = true)
    (hg : w.geocode = .ok (g :: gs))
    (hp : w.placesNearby g.lat g.lng = .ok (p :: ps))
    (hca : collectAll w fuel (p :: ps) = (evs, some (.ok (rows, r :: rs)))) :
    runMain w fuel =
      (midTrace w g evs rows ++ (extractPhase w.gemini (r :: rs)).1 ++
         reportPhase (uniqueAux [] ((r :: rs).map (fun x => x.business)))
           (extractPhase w.gemini (r :: rs)).2,
       .finished) := by
  simp [runMain, preTrace, midTrace, hk, hg, hp, hca]

/-- C3: whenever the run does not diverge, it exits with status 1 exactly
on missing credentials, empty geocode result, empty place-search result,
or empty review set; 1 is the only explicit exit status; every other run
(including one whose service call raised and was caught by the top-level
handler) falls off the end with the implicit success status. -/
theorem c3_exit_status_characterization (w : World) (fuel : Nat)
    (h : (runMain w fuel).2 ≠ .outOfFuel) :
    ((runMain w fuel).2 = .exited 1 ↔ exitOneCond w fuel)
    ∧ (∀ c, (runMain w fuel).2 = .exited c → c = 1)
    ∧ ((runMain w fuel).2 = .exited 1 ∨ (runMain w fuel).2 = .finished) := by
  by_cases hk : (truthy w.mapsKey && truthy w.geminiKey) = true
  · rcases hgE : w.geocode with e | gs
    · rw [runMain_geocode_error w fuel e hk hgE]
      refine ⟨⟨fun hc => by simp at hc, fun hc => ?_⟩,
        fun c hc => by simp at hc, Or.inr rfl⟩
      rcases hc with hc | ⟨-, hc⟩ | ⟨g', gs', -, hc, -⟩ |
        ⟨g', gs', p', ps', evs', rows', -, hc, -, -⟩
      · simp [hk] at hc
      · rw [hgE] at hc; simp at hc
      · rw [hgE] at hc; simp at hc
      · rw [hgE] at hc; simp at hc
    · cases gs with
      | nil =>
        rw [runMain_geocode_empty w fuel hk hgE]
        exact ⟨⟨fun _ => Or.inr (Or.inl ⟨hk, hgE⟩), fun _ => rfl⟩,
          fun c hc => by simpa using hc.symm, Or.inl rfl⟩
      | cons g gs =>
        rcases hpE : w.placesNearby g.lat g.lng with e | res
        · rw [runMain_places_error w fuel g gs e hk hgE hpE]
          refine ⟨⟨fun hc => by simp at hc, fun hc => ?_⟩,
            fun c hc => by simp at hc, Or.inr rfl⟩
          rcases hc with hc | ⟨-, hc⟩ | ⟨g', gs', -, hc, hp'⟩ |
            ⟨g', gs', p', ps', evs', rows', -, hc, hp', -⟩
          · simp [hk] at hc
          · rw [hgE] at hc; simp at hc
          · rw [hgE] at hc
            simp only [Except.ok.injEq, List.cons.injEq] at hc
            obtain ⟨rfl, rfl⟩ := hc
            rw [hpE] at hp'; simp at hp'
          · rw [hgE] at hc
            simp only [Except.ok.injEq, List.cons.injEq] at hc
            obtain ⟨rfl, rfl⟩ := hc
            rw [hpE] at hp'; simp at hp'
        · cases res with
          | nil =>
            rw [runMain_places_empty w fuel g gs hk hgE hpE]
            exact ⟨⟨fun _ => Or.inr (Or.inr (Or.inl ⟨g, gs, hk, hgE, hpE⟩)),
              fun _ => rfl⟩,
              fun c hc => by simpa using hc.symm, Or.inl rfl⟩
          | cons p ps =>
            rcases hcaE : collectAll w fuel (p :: ps) with ⟨evs, cres⟩
            rcases cres with - | cx
            · exact absurd
                (congrArg Prod.snd
                  (runMain_out_of_fuel w fuel g gs p ps evs hk hgE hpE hcaE)) h
            · rcases cx with e | ⟨rows, reviews⟩
              · rw [runMain_details_error w fuel g gs p ps evs e hk hgE hpE
                  hcaE]
                refine ⟨⟨fun hc => by simp at hc, fun hc => ?_⟩,
                  fun c hc => by simp at hc, Or.inr rfl⟩
                rcases hc with hc | ⟨-, hc⟩ | ⟨g', gs', -, hc, hp'⟩ |
                  ⟨g', gs', p', ps', evs', rows', -, hc, hp', hca'⟩
                · simp [hk] at hc
                · rw [hgE] at hc; simp at hc
                · rw [hgE] at hc
                  simp only [Except.ok.injEq, List.cons.injEq] at hc
                  obtain ⟨rfl, rfl⟩ := hc
                  rw [hpE] at hp'; simp at hp'
                · rw [hgE] at hc
                  simp only [Except.ok.injEq, List.cons.injEq] at hc
                  obtain ⟨rfl, rfl⟩ := hc
                  rw [hpE] at hp'
                  simp only [Except.ok.injEq, List.cons.injEq] at hp'
                  obtain ⟨rfl, rfl⟩ := hp'
                  rw [hcaE] at hca'; simp at hca'
              · cases reviews with
                | nil =>
                  rw [runMain_no_reviews w fuel g gs p ps evs rows hk hgE hpE
                    hcaE]
                  exact ⟨⟨fun _ => Or.inr (Or.inr (Or.inr
                      ⟨g, gs, p, ps, evs, rows, hk, hgE, hpE, hcaE⟩)),
                    fun _ => rfl⟩,
                    fun c hc => by simpa using hc.symm, Or.inl rfl⟩
                | cons r rs =>
                  rw [runMain_with_reviews w fuel g gs p ps evs rows r rs hk
                    hgE hpE hcaE]
                  refine ⟨⟨fun hc => by simp at hc, fun hc => ?_⟩,
                    fun c hc => by simp at hc, Or.inr rfl⟩
                  rcases hc with hc | ⟨-, hc⟩ | ⟨g', gs', -, hc, hp'⟩ |
                    ⟨g', gs', p', ps', evs', rows', -, hc, hp', hca'⟩
                  · simp [hk] at hc
                  · rw [hgE] at hc; simp at hc
                  · rw [hgE] at hc
                    simp only [Except.ok.injEq, List.cons.injEq] at hc
                    obtain ⟨rfl, rfl⟩ := hc
                    rw [hpE] at hp'; simp at hp'
                  · rw [hgE] at hc
                    simp only [Except.ok.injEq, List.cons.injEq] at hc
                    obtain ⟨rfl, rfl⟩ := hc
                    rw [hpE] at hp'
                    simp only [Except.ok.injEq, List.cons.injEq] at hp'
                    obtain ⟨rfl, rfl⟩ := hp'
                    rw [hcaE] at hca'
                    simp only [Prod.mk.injEq, Option.some.injEq,
                      Except.ok.injEq] at hca'
                    exact absurd hca'.2.2 (List.cons_ne_nil r rs)
  · have hk' : (truthy w.mapsKey && truthy w.geminiKey) = false :=
      Bool.not_eq_true _ ▸ Bool.eq_false_iff.mpr hk
    rw [runMain_no_creds w fuel hk']
    exact ⟨⟨fun _ => Or.inl hk', fun _ => rfl⟩,
      fun c hc => by simpa using hc.symm, Or.inl rfl⟩

/-! ## Event-shape lemmas -/

/-- Pagination emits only details calls and 2-unit sleeps. -/
theorem pageLoop_events (pid : String)
    (d : Option String → Except String DetailsPage) :
    ∀ (fuel : Nat) (tok : Option String), ∀ e ∈ (pageLoop pid d fuel tok).1,
      (∃ t, e = Ev.detailsCall pid t) ∨ e = Ev.sleepEv 2 := by
  intro fuel
  induction fuel with
  | zero => intro tok e he; simp [pageLoop] at he
  | succ f ih =>
    intro tok e he
    unfold pageLoop at he
    rcases hd : d tok with err | page
    · rw [hd] at he
      simp only [List.mem_singleton] at he
      subst he
      exact Or.inl ⟨tok, rfl⟩
    · rw [hd] at he
      by_cases ht : truthy page.next_page_token
      · simp only [ht, if_true, List.mem_cons] at he
        rcases he with rfl | rfl | he
        · exact Or.inl ⟨tok, rfl⟩
        · exact Or.inr rfl
        · exact ih page.next_page_token e he
      · simp only [ht, if_false, Bool.false_eq_true, List.mem_singleton] at he
        subst he
        exact Or.inl ⟨tok, rfl⟩

/-- One place's collection emits only details calls and 2-unit sleeps. -/
theorem collectPlace_events (w : World) (fuel : Nat) (p : PlaceResult) :
    ∀ e ∈ (collectPlace w fuel p).1,
      (∃ pid t, e = Ev.detailsCall pid t) ∨ e = Ev.sleepEv 2 := by
  intro e he
  have he' : e ∈ (pageLoop p.place_id (w.placeDetails p.place_id) fuel none).1 :=
    he
  rcases pageLoop_events p.place_id (w.placeDetails p.place_id) fuel none e he'
    with ⟨t, rfl⟩ | rfl
  · exact Or.inl ⟨p.place_id, t, rfl⟩
  · exact Or.inr rfl

/-- The whole collection loop emits only details calls and 2-unit sleeps. -/
theorem collectAll_events (w : World) (fuel : Nat) :
    ∀ (ps : List PlaceResult), ∀ e ∈ (collectAll w fuel ps).1,
      (∃ pid t, e = Ev.detailsCall pid t) ∨ e = Ev.sleepEv 2 := by
  intro ps
  induction ps with
  | nil => intro e he; simp [collectAll] at he
  | cons p rest ih =>
    intro e he
    unfold collectAll at he
    rcases hcp : collectPlace w fuel p with ⟨evs, res⟩
    rw [hcp] at he
    have hevs : ∀ x ∈ evs, (∃ pid t, x = Ev.detailsCall pid t) ∨
        x = Ev.sleepEv 2 := by
      intro x hx
      exact collectPlace_events w fuel p x (hcp ▸ hx)
    rcases res with - | cx
    · exact hevs e he
    · rcases cx with err | ⟨row, revs⟩
      · exact hevs e he
      · rcases hca : collectAll w fuel rest with ⟨evs2, res2⟩
        rw [hca] at he
        rcases res2 with - | cx2
        · rcases List.mem_append.mp he with h' | h'
          · exact hevs e h'
          · have hmem : e ∈ (collectAll w fuel rest).1 := by rw [hca]; exact h'
            exact ih e hmem
        · rcases cx2 with err2 | ⟨rows2, revs2⟩
          · rcases List.mem_append.mp he with h' | h'
            · exact hevs e h'
            · have : e ∈ (collectAll w fuel rest).1 := by rw [hca]; exact h'
              exact ih e this
          · rcases List.mem_append.mp he with h' | h'
            · exact hevs e h'
            · have : e ∈ (collectAll w fuel rest).1 := by rw [hca]; exact h'
              exact ih e this

/-- The retry loop emits only completion calls on its own review text,
prints, and 1-unit sleeps. -/
theorem analyzeLoop_events (call : String → Nat → AttemptOutcome)
    (t : String) (idxs : List Nat) :
    ∀ e ∈ (analyzeLoop call t idxs).1,
      (∃ a, e = Ev.geminiCall t a) ∨ (∃ s, e = Ev.printMsg s) ∨
        e = Ev.sleepEv 1 := by
  induction idxs with
  | nil => intro e he; simp [analyzeLoop] at he
  | cons i rest ih =>
    intro e he
    unfold analyzeLoop at he
    rcases hc : call t i with e' | - | e' | m
    all_goals rw [hc] at he
    · simp only [List.mem_cons] at he
      rcases he with rfl | rfl | rfl | he
      · exact Or.inl ⟨i, rfl⟩
      · exact Or.inr (Or.inl ⟨_, rfl⟩)
      · exact Or.inr (Or.inr rfl)
      · exact ih e he
    · simp only [List.mem_cons] at he
      rcases he with rfl | rfl | rfl | he
      · exact Or.inl ⟨i, rfl⟩
      · exact Or.inr (Or.inl ⟨_, rfl⟩)
      · exact Or.inr (Or.inr rfl)
      · exact ih e he
    · simp only [List.mem_cons] at he
      rcases he with rfl | rfl | rfl | he
      · exact Or.inl ⟨i, rfl⟩
      · exact Or.inr (Or.inl ⟨_, rfl⟩)
      · exact Or.inr (Or.inr rfl)
      · exact ih e he
    · simp only [List.mem_singleton] at he
      subst he
      exact Or.inl ⟨i, rfl⟩

/-- The extraction phase emits only completion calls, prints and 1-unit
sleeps. -/
theorem extractPhase_events (call : String → Nat → AttemptOutcome)
    (reviews : List ReviewRow) :
    ∀ e ∈ (extractPhase call reviews).1,
      (∃ t a, e = Ev.geminiCall t a) ∨ (∃ s, e = Ev.printMsg s) ∨
        e = Ev.sleepEv 1 := by
  intro e he
  unfold extractPhase at he
  rcases List.mem_cons.mp he with rfl | he'
  · exact Or.inr (Or.inl ⟨_, rfl⟩)
  · rw [List.mem_flatten] at he'
    obtain ⟨l, hl, hel⟩ := he'
    rw [List.mem_map] at hl
    obtain ⟨pair, hpair, rfl⟩ := hl
    rw [List.mem_map] at hpair
    obtain ⟨b, -, rfl⟩ := hpair
    simp only at hel
    rcases List.mem_cons.mp hel with rfl | hel'
    · exact Or.inr (Or.inl ⟨_, rfl⟩)
    · unfold analyze_reviews_batch at hel'
      rw [List.mem_flatten] at hel'
      obtain ⟨l2, hl2, hel2⟩ := hel'
      rw [List.mem_map] at hl2
      obtain ⟨t, -, rfl⟩ := hl2
      have hmem : e ∈ (analyzeLoop call t (List.range defaultRetries)).1 := hel2
      rcases analyzeLoop_events call t (List.range defaultRetries) e hmem with
        ⟨a, rfl⟩ | ⟨s, rfl⟩ | rfl
      · exact Or.inl ⟨t, a, rfl⟩
      · exact Or.inr (Or.inl ⟨s, rfl⟩)
      · exact Or.inr (Or.inr rfl)

/-- The report phase emits only prints and bar-chart displays. -/
theorem reportPhase_events (u : List String) (aspects : List AspectRecord) :
    ∀ e ∈ reportPhase u aspects,
      (∃ s, e = Ev.printMsg s) ∨ (∃ b, e = Ev.showBar b) := by
  intro e he
  unfold reportPhase at he
  rcases aspects with - | ⟨a, as⟩
  · rw [List.mem_singleton] at he
    subst he
    exact Or.inl ⟨_, rfl⟩
  · rcases List.mem_cons.mp he with rfl | he'
    · exact Or.inl ⟨_, rfl⟩
    · rw [List.mem_map] at he'
      obtain ⟨b, -, rfl⟩ := he'
      exact Or.inr ⟨b, rfl⟩

/-- Collection events carry none of the write/completion/chart flags. -/
theorem collectAll_event_flags (w : World) (fuel : Nat)
    (ps : List PlaceResult) :
    ∀ e ∈ (collectAll w fuel ps).1,
      isWriteEv e = false ∧ isGeminiEv e = false ∧ isScatterEv e = false ∧
        ∀ b, e ≠ Ev.showBar b := by
  intro e he
  rcases collectAll_events w fuel ps e he with ⟨pid, t, rfl⟩ | rfl <;>
    simp [isWriteEv, isGeminiEv, isScatterEv]

/-- Extraction events are never writes, scatter plots or bar charts. -/
theorem extractPhase_event_flags (call : String → Nat → AttemptOutcome)
    (reviews : List ReviewRow) :
    ∀ e ∈ (extractPhase call reviews).1,
      isWriteEv e = false ∧ isScatterEv e = false ∧
        ∀ b, e ≠ Ev.showBar b := by
  intro e he
  rcases extractPhase_events call reviews e he with ⟨t, a, rfl⟩ | ⟨s, rfl⟩ | rfl
    <;> simp [isWriteEv, isScatterEv]

/-- Report events are never writes, completion calls or scatter plots. -/
theorem reportPhase_event_flags (u : List String)
    (aspects : List AspectRecord) :
    ∀ e ∈ reportPhase u aspects,
      isWriteEv e = false ∧ isGeminiEv e = false ∧ isScatterEv e = false := by
  intro e he
  rcases reportPhase_events u aspects e he with ⟨s, rfl⟩ | ⟨b, rfl⟩ <;>
    simp [isWriteEv, isGeminiEv, isScatterEv]

/-- C5: the resolver keeps exactly the first geocode candidate's
latitude/longitude pair — the nearby-search call in any run is issued at
the first candidate's coordinates, never an aggregate — and an empty
candidate list makes the run print the location-not-found message and
exit with status 1. -/
theorem c5_resolver_first_candidate (g : GeoCandidate)
    (rest : List GeoCandidate) (w : World) (fuel : Nat) :
    (∀ gs : List GeoCandidate, gs = g :: rest →
      resolvedCoord gs = some (g.lat, g.lng))
    ∧ ((truthy w.mapsKey && truthy w.geminiKey) = true →
        w.geocode = .ok (g :: rest) →
        Ev.placesCall g.lat g.lng 2000 w.businessType ∈ (runMain w fuel).1)
    ∧ ((truthy w.mapsKey && truthy w.geminiKey) = true →
        w.geocode = .ok [] →
        runMain w fuel =
          ([Ev.geocodeCall w.locationInput,
            Ev.printMsg "Location not found."], .exited 1)) := by
  refine ⟨?_, ?_, runMain_geocode_empty w fuel⟩
  · rintro gs rfl
    rfl
  · intro hk hg
    rcases hpE : w.placesNearby g.lat g.lng with e | res
    · rw [runMain_places_error w fuel g rest e hk hg hpE]
      simp [preTrace]
    · cases res with
      | nil =>
        rw [runMain_places_empty w fuel g rest hk hg hpE]
        simp [preTrace]
      | cons p ps =>
        rcases hcaE : collectAll w fuel (p :: ps) with ⟨evs, cres⟩
        rcases cres with - | cx
        · rw [runMain_out_of_fuel w fuel g rest p ps evs hk hg hpE hcaE]
          simp [preTrace]
        · rcases cx with e | ⟨rows, reviews⟩
          · rw [runMain_details_error w fuel g rest p ps evs e hk hg hpE hcaE]
            simp [preTrace]
          · cases reviews with
            | nil =>
              rw [runMain_no_reviews w fuel g rest p ps evs rows hk hg hpE
                hcaE]
              simp [midTrace, preTrace]
            | cons r rs =>
              rw [runMain_with_reviews w fuel g rest p ps evs rows r rs hk hg
                hpE hcaE]
              simp [midTrace, preTrace]

/-- C5 witness: with candidates [(10,20), (30,40)] the resolver yields
(10,20) and the search call in the run's trace carries (10,20). -/
theorem c5_resolver_first_candidate_witness :
    resolvedCoord [⟨10, 20⟩, ⟨30, 40⟩] = some ((10 : Rat), (20 : Rat))
    ∧ Ev.placesCall 10 20 2000 "restaurant" ∈ (runMain twoCandidateWorld 1).1 := by
  constructor
  · exact (c5_resolver_first_candidate ⟨10, 20⟩ [⟨30, 40⟩] twoCandidateWorld
      1).1 [⟨10, 20⟩, ⟨30, 40⟩] rfl
  · exact (c5_resolver_first_candidate ⟨10, 20⟩ [⟨30, 40⟩] twoCandidateWorld
      1).2.1 (by decide) rfl

/-- C2 amended: when no aspect/sentiment results were produced the aspect
report is skipped with a printed message and the run completes normally;
but when no reviews were collected at all the script prints a message and
exits with status 1 — a failing exit, not a skip. -/
theorem c2_empty_results_reporting (w : World) (fuel : Nat) (g : GeoCandidate)
    (gs : List GeoCandidate) (p : PlaceResult) (ps : List PlaceResult)
    (evs : List Ev) (rows : List BusinessRow) (reviews : List ReviewRow)
    (hk : (truthy w.mapsKey && truthy w.geminiKey) = true)
    (hg : w.geocode = .ok (g :: gs))
    (hp : w.placesNearby g.lat g.lng = .ok (p :: ps))
    (hca : collectAll w fuel (p :: ps) = (evs, some (.ok (rows, reviews)))) :
    (reviews = [] →
      (runMain w fuel).2 = .exited 1
      ∧ Ev.printMsg "No reviews found for these businesses."
          ∈ (runMain w fuel).1)
    ∧ ((extractPhase w.gemini reviews).2 = [] →
        ∀ (r : ReviewRow) (rs : List ReviewRow), reviews = r :: rs →
        (runMain w fuel).2 = .finished
        ∧ Ev.printMsg "No aspect sentiment detected." ∈ (runMain w fuel).1
        ∧ ∀ b, Ev.showBar b ∉ (runMain w fuel).1) := by
  constructor
  · rintro rfl
    rw [runMain_no_reviews w fuel g gs p ps evs rows hk hg hp hca]
    simp
  · intro hempty r rs hrev
    subst hrev
    rw [runMain_with_reviews w fuel g gs p ps evs rows r rs hk hg hp hca]
    rw [hempty]
    refine ⟨rfl, ?_, ?_⟩
    · simp [reportPhase]
    · intro b hmem
      simp only [midTrace, preTrace] at hmem
      rcases List.mem_append.mp hmem with hmem' | hmem'
      · rcases List.mem_append.mp hmem' with hmem'' | hmem''
        · rcases List.mem_append.mp hmem'' with h3 | h3
          · rcases List.mem_append.mp h3 with h4 | h4
            · simp at h4
            · have h5 : Ev.showBar b ∈ (collectAll w fuel (p :: ps)).1 := by
                rw [hca]
                exact h4
              exact (collectAll_event_flags w fuel (p :: ps) _ h5).2.2.2 b rfl
          · simp at h3
        · exact (extractPhase_event_flags w.gemini (r :: rs) _ hmem'').2.2 b
            rfl
      · simp [reportPhase] at hmem'

/-- C2 counterexample: in a run that collects no reviews the script prints
the message but then exits with status 1 — the run fails, contradicting
the claim that the step is merely skipped and the run does not fail. -/
theorem c2_counterexample :
    (collectAll noReviewsWorld 1
        [⟨"pid1", some "Cafe A", some "Addr 1", some 4, some 10⟩]).2 =
      some (.ok ([⟨"Cafe A", some 4, 10, "Addr 1"⟩], []))
    ∧ Ev.printMsg "No reviews found for these businesses."
        ∈ (runMain noReviewsWorld 1).1
    ∧ (runMain noReviewsWorld 1).2 = .exited 1 :=
  ⟨by decide, by decide, by decide⟩

/-- C2 witness: with one review and no extracted aspects, the run prints
the skip message and completes normally. -/
theorem c2_empty_results_reporting_witness :
    (runMain noAspectWorld 1).2 = .finished
    ∧ Ev.printMsg "No aspect sentiment detected."
        ∈ (runMain noAspectWorld 1).1 := by
  have h := (c2_empty_results_reporting noAspectWorld 1 ⟨1, 2⟩ []
    ⟨"pid1", some "Cafe A", some "Addr 1", some 4, some 10⟩ []
    [Ev.detailsCall "pid1" none]
    [⟨"Cafe A", some 4, 10, "Addr 1"⟩]
    [⟨"Cafe A", "meh", some 3, "Addr 1", 10⟩]
    (by decide) (by decide) (by decide) (by decide)).2
    (by decide)
    ⟨"Cafe A", "meh", some 3, "Addr 1", 10⟩ [] rfl
  exact ⟨h.1, h.2.1⟩

/-- A successful per-place collection yields that place's business row and
the flattened reviews of its pages. -/
theorem collectPlace_ok (w : World) (fuel : Nat) (p : PlaceResult)
    (row : BusinessRow) (revs : List ReviewRow)
    (h : (collectPlace w fuel p).2 = some (.ok (row, revs))) :
    row = mkBusinessRow p ∧
      ∃ pages,
        (pageLoop p.place_id (w.placeDetails p.place_id) fuel none).2 =
          some (.ok pages) ∧
        revs = (pages.flatMap (fun pg => pg.reviews)).map
          (mkReviewRow (mkBusinessRow p)) := by
  simp only [collectPlace] at h
  rcases hpl : (pageLoop p.place_id (w.placeDetails p.place_id) fuel none).2
    with - | cx
  · rw [hpl] at h
    simp at h
  · rw [hpl] at h
    rcases cx with e | pages
    · simp [Except.map] at h
    · simp [Except.map] at h
      obtain ⟨h1, h2⟩ := h
      exact ⟨h1.symm, pages, rfl, h2.symm⟩

/-- A successful collection produces exactly one business row per
discovered place, in discovery order. -/
theorem collectAll_ok_rows (w : World) (fuel : Nat) :
    ∀ (ps : List PlaceResult) (evs : List Ev) (rows : List BusinessRow)
      (revs : List ReviewRow),
      collectAll w fuel ps = (evs, some (.ok (rows, revs))) →
      rows = ps.map mkBusinessRow := by
  intro ps
  induction ps with
  | nil =>
    intro evs rows revs h
    unfold collectAll at h
    simp only [Prod.mk.injEq, Option.some.injEq, Except.ok.injEq] at h
    exact h.2.1.symm
  | cons p rest ih =>
    intro evs rows revs h
    unfold collectAll at h
    rcases hcp : collectPlace w fuel p with ⟨evs1, res1⟩
    rw [hcp] at h
    rcases res1 with - | cx1
    · simp at h
    · rcases cx1 with e1 | ⟨row1, revs1⟩
      · simp at h
      · rcases hca2 : collectAll w fuel rest with ⟨evs2, res2⟩
        rw [hca2] at h
        rcases res2 with - | cx2
        · simp at h
        · rcases cx2 with e2 | ⟨rows2, revs2⟩
          · simp at h
          · simp only [Prod.mk.injEq, Option.some.injEq, Except.ok.injEq] at h
            obtain ⟨-, hrows, -⟩ := h
            have hrow1 : row1 = mkBusinessRow p :=
              (collectPlace_ok w fuel p row1 revs1 (by rw [hcp])).1
            have hrest := ih evs2 rows2 revs2 hca2
            rw [List.map_cons, ← hrows, hrow1, hrest]

/-- The collection trace never contains a CSV write. -/
theorem collectAll_countP_write (w : World) (fuel : Nat)
    (ps : List PlaceResult) : (collectAll w fuel ps).1.countP isWriteEv = 0 :=
  List.countP_eq_zero.mpr (fun e he => by
    simp [(collectAll_event_flags w fuel ps e he).1])

/-- The trace up to the scatter plot contains exactly one CSV write. -/
theorem countP_isWrite_midTrace (w : World) (g : GeoCandidate)
    (evs : List Ev) (rows : List BusinessRow)
    (hevs0 : evs.countP isWriteEv = 0) :
    (midTrace w g evs rows).countP isWriteEv = 1 := by
  simp [midTrace, preTrace, List.countP_append, hevs0, isWriteEv,
    List.countP_cons]

/-- C7: the persisted output is one CSV of business metadata with exactly
the columns Business, Rating, Reviews_Count, Address, one row per
discovered place, in discovery order; exactly one CSV write occurs. -/
theorem c7_csv_business_table (w : World) (fuel : Nat) (g : GeoCandidate)
    (gs : List GeoCandidate) (p : PlaceResult) (ps : List PlaceResult)
    (evs : List Ev) (rows : List BusinessRow) (reviews : List ReviewRow)
    (hk : (truthy w.mapsKey && truthy w.geminiKey) = true)
    (hg : w.geocode = .ok (g :: gs))
    (hp : w.placesNearby g.lat g.lng = .ok (p :: ps))
    (hca : collectAll w fuel (p :: ps) = (evs, some (.ok (rows, reviews)))) :
    Ev.writeCsv (mkCsv w.floatFmt rows) ∈ (runMain w fuel).1
    ∧ (mkCsv w.floatFmt rows).header =
        ["Business", "Rating", "Reviews_Count", "Address"]
    ∧ (mkCsv w.floatFmt rows).rows =
        (p :: ps).map
          (fun q => serializeRow w.floatFmt Nat.repr (mkBusinessRow q))
    ∧ (mkCsv w.floatFmt rows).rows.length = (p :: ps).length
    ∧ (runMain w fuel).1.countP isWriteEv = 1 := by
  have hrows : rows = (p :: ps).map mkBusinessRow :=
    collectAll_ok_rows w fuel (p :: ps) evs rows reviews hca
  have hevs0 : evs.countP isWriteEv = 0 := by
    have := collectAll_countP_write w fuel (p :: ps)
    rwa [hca] at this
  have hrowsEq : (mkCsv w.floatFmt rows).rows =
      (p :: ps).map
        (fun q => serializeRow w.floatFmt Nat.repr (mkBusinessRow q)) := by
    rw [show (mkCsv w.floatFmt rows).rows =
          rows.map (serializeRow w.floatFmt Nat.repr) from rfl,
        hrows, List.map_map]
    rfl
  refine ⟨?_, rfl, hrowsEq, ?_, ?_⟩
  · cases reviews with
    | nil =>
      rw [runMain_no_reviews w fuel g gs p ps evs rows hk hg hp hca]
      simp [midTrace, preTrace]
    | cons r rs =>
      rw [runMain_with_reviews w fuel g gs p ps evs rows r rs hk hg hp hca]
      simp [midTrace, preTrace]
  · rw [hrowsEq]
    simp
  · cases reviews with
    | nil =>
      rw [runMain_no_reviews w fuel g gs p ps evs rows hk hg hp hca]
      rw [List.countP_append, countP_isWrite_midTrace w g evs rows hevs0]
      simp [isWriteEv]
    | cons r rs =>
      rw [runMain_with_reviews w fuel g gs p ps evs rows r rs hk hg hp hca]
      rw [List.countP_append, List.countP_append,
        countP_isWrite_midTrace w g evs rows hevs0]
      have hex : (extractPhase w.gemini (r :: rs)).1.countP isWriteEv = 0 :=
        List.countP_eq_zero.mpr (fun e he => by
          simp [(extractPhase_event_flags w.gemini (r :: rs) e he).1])
      have hrep : (reportPhase
          (uniqueAux [] ((r :: rs).map (fun x => x.business)))
          (extractPhase w.gemini (r :: rs)).2).countP isWriteEv = 0 :=
        List.countP_eq_zero.mpr (fun e he => by
          simp [(reportPhase_event_flags _ _ e he).1])
      rw [hex, hrep]

/-- C7 witness: the one-place world writes a one-row CSV exactly once. -/
theorem c7_csv_business_table_witness :
    Ev.writeCsv (mkCsv noReviewsWorld.floatFmt
        [⟨"Cafe A", some 4, 10, "Addr 1"⟩]) ∈ (runMain noReviewsWorld 1).1
    ∧ (mkCsv noReviewsWorld.floatFmt
        [⟨"Cafe A", some 4, 10, "Addr 1"⟩]).rows.length = 1
    ∧ (runMain noReviewsWorld 1).1.countP isWriteEv = 1 := by
  have h := c7_csv_business_table noReviewsWorld 1 ⟨1, 2⟩ []
    ⟨"pid1", some "Cafe A", some "Addr 1", some 4, some 10⟩ []
    [Ev.detailsCall "pid1" none] [⟨"Cafe A", some 4, 10, "Addr 1"⟩] []
    (by decide) (by decide) (by decide) (by decide)
  exact ⟨h.1, h.2.2.2.1, h.2.2.2.2⟩

/-! ## Ordering of the CSV write against the extraction stage -/

/-- Elements of a `takeWhile` come from the original list. -/
theorem mem_takeWhile_mem {α : Type} (p : α → Bool) :
    ∀ (l : List α) (x : α), x ∈ l.takeWhile p → x ∈ l := by
  intro l
  induction l with
  | nil => intro x h; simp at h
  | cons a l' ih =>
    intro x h
    rw [List.takeWhile_cons] at h
    by_cases hp : p a = true
    · rw [if_pos hp] at h
      rcases List.mem_cons.mp h with rfl | h'
      · exact List.mem_cons_self _ _
      · exact List.mem_cons_of_mem _ (ih x h')
    · rw [if_neg hp] at h
      simp at h

/-- `takeWhile` stops exactly at the first failing element. -/
theorem takeWhile_middle {α : Type} (p : α → Bool) :
    ∀ (A : List α) (x : α) (B : List α),
      (∀ a ∈ A, p a = true) → p x = false →
      (A ++ x :: B).takeWhile p = A := by
  intro A
  induction A with
  | nil =>
    intro x B hA hx
    simp [List.takeWhile_cons, hx]
  | cons a A' ih =>
    intro x B hA hx
    rw [List.cons_append, List.takeWhile_cons,
      if_pos (hA a (List.mem_cons_self a A'))]
    rw [ih x B (fun b hb => hA b (List.mem_cons_of_mem a hb)) hx]

/-- `csvWritesOf` distributes over append. -/
theorem csvWritesOf_append (l1 l2 : List Ev) :
    csvWritesOf (l1 ++ l2) = csvWritesOf l1 ++ csvWritesOf l2 := by
  simp [csvWritesOf, List.filterMap_append]

/-- A trace without write events contributes no CSV file. -/
theorem csvWritesOf_eq_nil (l : List Ev)
    (h : ∀ e ∈ l, isWriteEv e = false) : csvWritesOf l = [] := by
  unfold csvWritesOf
  rw [List.filterMap_eq_nil]
  intro e he
  cases e <;> try rfl
  have hw := h _ he
  simp [isWriteEv] at hw

/-- Events of the pre-search trace carry no interesting flag. -/
theorem preTrace_flags (w : World) (g : GeoCandidate) :
    ∀ e ∈ preTrace w g,
      isGeminiEv e = false ∧ isWriteEv e = false ∧ isScatterEv e = false := by
  intro e he
  rcases List.mem_cons.mp he with rfl | he'
  · simp [isGeminiEv, isWriteEv, isScatterEv]
  · rcases List.mem_cons.mp he' with rfl | he''
    · simp [isGeminiEv, isWriteEv, isScatterEv]
    · simp at he''

/-- Both `takeWhile` slices before the CSV write and before the scatter
plot contain no completion call when the collection events do not. -/
theorem c10_helper_mid (w : World) (g : GeoCandidate) (evs : List Ev)
    (rows : List BusinessRow) (X : List Ev)
    (hg : ∀ e ∈ evs, isGeminiEv e = false)
    (hw : ∀ e ∈ evs, isWriteEv e = false)
    (hs : ∀ e ∈ evs, isScatterEv e = false) :
    (∀ e ∈ (midTrace w g evs rows ++ X).takeWhile (fun x => !isWriteEv x),
      isGeminiEv e = false)
    ∧ (∀ e ∈ (midTrace w g evs rows ++ X).takeWhile (fun x => !isScatterEv x),
      isGeminiEv e = false) := by
  have h1 : midTrace w g evs rows ++ X =
      (preTrace w g ++ evs) ++ (Ev.writeCsv (mkCsv w.floatFmt rows) ::
        ([Ev.printMsg "\n--- Competitor Data ---",
          Ev.printMsg "\n\u2705 Data saved to competitor_data.csv",
          Ev.showScatter] ++ X)) := by
    simp [midTrace, preTrace]
  have h2 : midTrace w g evs rows ++ X =
      ((preTrace w g ++ evs) ++
        [Ev.writeCsv (mkCsv w.floatFmt rows),
         Ev.printMsg "\n--- Competitor Data ---",
         Ev.printMsg "\n\u2705 Data saved to competitor_data.csv"]) ++
        (Ev.showScatter :: X) := by
    simp [midTrace, preTrace]
  constructor
  · rw [h1, takeWhile_middle (fun x => !isWriteEv x) (preTrace w g ++ evs) _ _
      ?hA ?hx]
    case hA =>
      intro a ha
      rcases List.mem_append.mp ha with h' | h'
      · simp [(preTrace_flags w g a h').2.1]
      · simp [hw a h']
    case hx => simp [isWriteEv]
    intro e he
    rcases List.mem_append.mp he with h' | h'
    · exact (preTrace_flags w g e h').1
    · exact hg e h'
  · rw [h2, takeWhile_middle (fun x => !isScatterEv x)
      ((preTrace w g ++ evs) ++
        [Ev.writeCsv (mkCsv w.floatFmt rows),
         Ev.printMsg "\n--- Competitor Data ---",
         Ev.printMsg "\n\u2705 Data saved to competitor_data.csv"]) _ _
      ?hA2 ?hx2]
    case hA2 =>
      intro a ha
      rcases List.mem_append.mp ha with h' | h'
      · rcases List.mem_append.mp h' with h1 | h1
        · simp [(preTrace_flags w g a h1).2.2]
        · simp [hs a h1]
      · rcases List.mem_cons.mp h' with rfl | h1
        · simp [isScatterEv]
        · rcases List.mem_cons.mp h1 with rfl | h2
          · simp [isScatterEv]
          · rcases List.mem_cons.mp h2 with rfl | h3
            · simp [isScatterEv]
            · simp at h3
    case hx2 => simp [isScatterEv]
    intro e he
    rcases List.mem_append.mp he with h' | h'
    · rcases List.mem_append.mp h' with h1 | h1
      · exact (preTrace_flags w g e h1).1
      · exact hg e h1
    · rcases List.mem_cons.mp h' with rfl | h1
      · simp [isGeminiEv]
      · rcases List.mem_cons.mp h1 with rfl | h2
        · simp [isGeminiEv]
        · rcases List.mem_cons.mp h2 with rfl | h3
          · simp [isGeminiEv]
          · simp at h3

/-- A trace without completion calls trivially has none before the write
or the scatter plot. -/
theorem no_gemini_takeWhile (t : List Ev)
    (h : ∀ e ∈ t, isGeminiEv e = false) :
    (∀ e ∈ t.takeWhile (fun x => !isWriteEv x), isGeminiEv e = false)
    ∧ (∀ e ∈ t.takeWhile (fun x => !isScatterEv x), isGeminiEv e = false) :=
  ⟨fun e he => h e (mem_takeWhile_mem _ t e he),
   fun e he => h e (mem_takeWhile_mem _ t e he)⟩

/-- The collection loop ignores the completion oracle. -/
theorem collectAll_gemini_irrel (w : World)
    (gem : String → Nat → AttemptOutcome) (fuel : Nat) :
    ∀ ps, collectAll (setGemini w gem) fuel ps =
      collectAll w fuel ps := by
  intro ps
  induction ps with
  | nil => rfl
  | cons p rest ih =>
    simp only [collectAll]
    rw [show collectPlace (setGemini w gem) fuel p =
          collectPlace w fuel p from rfl]
    rw [ih]

/-- The CSV files written by the trace up to the scatter plot. -/
theorem csvWritesOf_midTrace (w : World) (g : GeoCandidate) (evs : List Ev)
    (rows : List BusinessRow) (hw : ∀ e ∈ evs, isWriteEv e = false) :
    csvWritesOf (midTrace w g evs rows) = [mkCsv w.floatFmt rows] := by
  simp only [midTrace]
  rw [csvWritesOf_append, csvWritesOf_append, csvWritesOf_eq_nil evs hw]
  simp [csvWritesOf, preTrace]

/-- C10: in every run, no completion call precedes the CSV write or the
scatter plot in the trace, and the list of written CSV files is the same
whatever the completion oracle — a failure in extraction can neither
prevent nor alter the persisted CSV. -/
theorem c10_csv_written_before_extraction (w : World) (fuel : Nat) :
    (∀ e ∈ (runMain w fuel).1.takeWhile (fun x => !isWriteEv x),
      isGeminiEv e = false)
    ∧ (∀ e ∈ (runMain w fuel).1.takeWhile (fun x => !isScatterEv x),
      isGeminiEv e = false)
    ∧ (∀ gem : String → Nat → AttemptOutcome,
        csvWritesOf (runMain (setGemini w gem) fuel).1 =
          csvWritesOf (runMain w fuel).1) := by
  by_cases hk : (truthy w.mapsKey && truthy w.geminiKey) = true
  · rcases hgE : w.geocode with e | gs
    · rw [runMain_geocode_error w fuel e hk hgE]
      refine ⟨?_, ?_, ?_⟩
      · intro x hx
        have := mem_takeWhile_mem _ _ x hx
        rcases List.mem_cons.mp this with rfl | h'
        · rfl
        · rcases List.mem_cons.mp h' with rfl | h''
          · rfl
          · simp at h''
      · intro x hx
        have := mem_takeWhile_mem _ _ x hx
        rcases List.mem_cons.mp this with rfl | h'
        · rfl
        · rcases List.mem_cons.mp h' with rfl | h''
          · rfl
          · simp at h''
      · intro gem
        rw [runMain_geocode_error (setGemini w gem) fuel e hk hgE]
        rfl
    · cases gs with
      | nil =>
        rw [runMain_geocode_empty w fuel hk hgE]
        refine ⟨?_, ?_, ?_⟩
        · intro x hx
          have := mem_takeWhile_mem _ _ x hx
          rcases List.mem_cons.mp this with rfl | h'
          · rfl
          · rcases List.mem_cons.mp h' with rfl | h''
            · rfl
            · simp at h''
        · intro x hx
          have := mem_takeWhile_mem _ _ x hx
          rcases List.mem_cons.mp this with rfl | h'
          · rfl
          · rcases List.mem_cons.mp h' with rfl | h''
            · rfl
            · simp at h''
        · intro gem
          rw [runMain_geocode_empty (setGemini w gem) fuel hk hgE]
          rfl
      | cons g gs =>
        have hnogem_pre : ∀ x ∈ preTrace w g, isGeminiEv x = false :=
          fun x hx => (preTrace_flags w g x hx).1
        rcases hpE : w.placesNearby g.lat g.lng with e | res
        · rw [runMain_places_error w fuel g gs e hk hgE hpE]
          have hng : ∀ x ∈ preTrace w g ++ [catchEv e],
              isGeminiEv x = false := by
            intro x hx
            rcases List.mem_append.mp hx with h' | h'
            · exact hnogem_pre x h'
            · rcases List.mem_cons.mp h' with rfl | h''
              · rfl
              · simp at h''
          refine ⟨(no_gemini_takeWhile _ hng).1, (no_gemini_takeWhile _ hng).2,
            ?_⟩
          intro gem
          rw [runMain_places_error (setGemini w gem) fuel g gs e hk hgE
            hpE]
          rfl
        · cases res with
          | nil =>
            rw [runMain_places_empty w fuel g gs hk hgE hpE]
            have hng : ∀ x ∈ preTrace w g ++ [Ev.printMsg (noPlacesMsg w)],
                isGeminiEv x = false := by
              intro x hx
              rcases List.mem_append.mp hx with h' | h'
              · exact hnogem_pre x h'
              · rcases List.mem_cons.mp h' with rfl | h''
                · rfl
                · simp at h''
            refine ⟨(no_gemini_takeWhile _ hng).1,
              (no_gemini_takeWhile _ hng).2, ?_⟩
            intro gem
            rw [runMain_places_empty (setGemini w gem) fuel g gs hk hgE
              hpE]
            rfl
          | cons p ps =>
            rcases hcaE : collectAll w fuel (p :: ps) with ⟨evs, cres⟩
            have hflags : ∀ x ∈ evs, isGeminiEv x = false ∧
                isWriteEv x = false ∧ isScatterEv x = false := by
              intro x hx
              have hx' : x ∈ (collectAll w fuel (p :: ps)).1 := by
                rw [hcaE]; exact hx
              obtain ⟨h1, h2, h3, -⟩ :=
                collectAll_event_flags w fuel (p :: ps) x hx'
              exact ⟨h2, h1, h3⟩
            have hflagsG : ∀ x ∈ evs, isGeminiEv x = false := by
              intro x hx
              have hx' : x ∈ (collectAll w fuel (p :: ps)).1 := by
                rw [hcaE]; exact hx
              exact (collectAll_event_flags w fuel (p :: ps) x hx').2.1
            have hflagsW : ∀ x ∈ evs, isWriteEv x = false := by
              intro x hx
              have hx' : x ∈ (collectAll w fuel (p :: ps)).1 := by
                rw [hcaE]; exact hx
              exact (collectAll_event_flags w fuel (p :: ps) x hx').1
            have hflagsS : ∀ x ∈ evs, isScatterEv x = false := by
              intro x hx
              have hx' : x ∈ (collectAll w fuel (p :: ps)).1 := by
                rw [hcaE]; exact hx
              exact (collectAll_event_flags w fuel (p :: ps) x hx').2.2.1
            rcases cres with - | cx
            · rw [runMain_out_of_fuel w fuel g gs p ps evs hk hgE hpE hcaE]
              have hng : ∀ x ∈ preTrace w g ++ evs, isGeminiEv x = false := by
                intro x hx
                rcases List.mem_append.mp hx with h' | h'
                · exact hnogem_pre x h'
                · exact hflagsG x h'
              refine ⟨(no_gemini_takeWhile _ hng).1,
                (no_gemini_takeWhile _ hng).2, ?_⟩
              intro gem
              rw [runMain_out_of_fuel (setGemini w gem) fuel g gs p ps
                evs hk hgE hpE (by rw [collectAll_gemini_irrel]; exact hcaE)]
              rfl
            · rcases cx with e | ⟨rows, reviews⟩
              · rw [runMain_details_error w fuel g gs p ps evs e hk hgE hpE
                  hcaE]
                have hng : ∀ x ∈ preTrace w g ++ evs ++ [catchEv e],
                    isGeminiEv x = false := by
                  intro x hx
                  rcases List.mem_append.mp hx with h' | h'
                  · rcases List.mem_append.mp h' with h1 | h1
                    · exact hnogem_pre x h1
                    · exact hflagsG x h1
                  · rcases List.mem_cons.mp h' with rfl | h''
                    · rfl
                    · simp at h''
                refine ⟨(no_gemini_takeWhile _ hng).1,
                  (no_gemini_takeWhile _ hng).2, ?_⟩
                intro gem
                rw [runMain_details_error (setGemini w gem) fuel g gs p
                  ps evs e hk hgE hpE
                  (by rw [collectAll_gemini_irrel]; exact hcaE)]
                rfl
              · cases reviews with
                | nil =>
                  rw [runMain_no_reviews w fuel g gs p ps evs rows hk hgE hpE
                    hcaE]
                  obtain ⟨ha, hb⟩ := c10_helper_mid w g evs rows
                    [Ev.printMsg "No reviews found for these businesses."]
                    hflagsG hflagsW hflagsS
                  refine ⟨ha, hb, ?_⟩
                  intro gem
                  rw [runMain_no_reviews (setGemini w gem) fuel g gs p
                    ps evs rows hk hgE hpE
                    (by rw [collectAll_gemini_irrel]; exact hcaE)]
                  rw [csvWritesOf_append, csvWritesOf_append,
                    csvWritesOf_midTrace (setGemini w gem) g evs rows
                      hflagsW,
                    csvWritesOf_midTrace w g evs rows hflagsW]
                  rfl
                | cons r rs =>
                  rw [runMain_with_reviews w fuel g gs p ps evs rows r rs hk
                    hgE hpE hcaE]
                  obtain ⟨ha, hb⟩ := c10_helper_mid w g evs rows
                    ((extractPhase w.gemini (r :: rs)).1 ++
                      reportPhase
                        (uniqueAux [] ((r :: rs).map (fun x => x.business)))
                        (extractPhase w.gemini (r :: rs)).2)
                    hflagsG hflagsW hflagsS
                  have hmm : midTrace w g evs rows ++
                      (extractPhase w.gemini (r :: rs)).1 ++
                      reportPhase
                        (uniqueAux [] ((r :: rs).map (fun x => x.business)))
                        (extractPhase w.gemini (r :: rs)).2 =
                      midTrace w g evs rows ++
                      ((extractPhase w.gemini (r :: rs)).1 ++
                        reportPhase
                          (uniqueAux [] ((r :: rs).map (fun x => x.business)))
                          (extractPhase w.gemini (r :: rs)).2) := by
                    rw [List.append_assoc]
                  refine ⟨by rw [hmm]; exact ha, by rw [hmm]; exact hb, ?_⟩
                  intro gem
                  rw [runMain_with_reviews (setGemini w gem) fuel g gs
                    p ps evs rows r rs hk hgE hpE
                    (by rw [collectAll_gemini_irrel]; exact hcaE)]
                  have hex1 : ∀ call : String → Nat → AttemptOutcome,
                      csvWritesOf (extractPhase call (r :: rs)).1 = [] :=
                    fun call => csvWritesOf_eq_nil _ (fun x hx =>
                      (extractPhase_event_flags call (r :: rs) x hx).1)
                  have hrep1 : ∀ (u : List String) (a : List AspectRecord),
                      csvWritesOf (reportPhase u a) = [] :=
                    fun u a => csvWritesOf_eq_nil _ (fun x hx =>
                      (reportPhase_event_flags u a x hx).1)
                  rw [csvWritesOf_append, csvWritesOf_append,
                    csvWritesOf_append, csvWritesOf_append,
                    csvWritesOf_midTrace (setGemini w gem) g evs rows
                      hflagsW,
                    csvWritesOf_midTrace w g evs rows hflagsW,
                    hex1, hex1, hrep1, hrep1]
                  rfl
  · have hk' : (truthy w.mapsKey && truthy w.geminiKey) = false :=
      Bool.not_eq_true _ ▸ Bool.eq_false_iff.mpr hk
    rw [runMain_no_creds w fuel hk']
    refine ⟨?_, ?_, ?_⟩
    · intro x hx
      have := mem_takeWhile_mem _ _ x hx
      rcases List.mem_cons.mp this with rfl | h'
      · rfl
      · simp at h'
    · intro x hx
      have := mem_takeWhile_mem _ _ x hx
      rcases List.mem_cons.mp this with rfl | h'
      · rfl
      · simp at h'
    · intro gem
      rw [runMain_no_creds (setGemini w gem) fuel hk']

/-- C10 witness: in the concrete one-place run, the first trace event (the
geocode call, before any write) is not a completion call, and swapping the
completion oracle leaves the written CSV files unchanged. -/
theorem c10_csv_written_before_extraction_witness :
    isGeminiEv (Ev.geocodeCall "X") = false
    ∧ csvWritesOf
        (runMain (setGemini noReviewsWorld (fun _ _ => .raises "boom")) 1).1 =
      csvWritesOf (runMain noReviewsWorld 1).1 := by
  constructor
  · exact (c10_csv_written_before_extraction noReviewsWorld 1).1
      (Ev.geocodeCall "X") (by decide)
  · exact (c10_csv_written_before_extraction noReviewsWorld 1).2.2
      (fun _ _ => .raises "boom")

/-! ## Pagination-loop structure (claim C6) -/

/-- Prepending the 2-unit sleep preserves the spacing invariant. -/
theorem recallsSpaced_sleep_cons (l : List Ev) :
    recallsSpaced (Ev.sleepEv 2 :: l) = recallsSpaced l := by
  cases l with
  | nil => rfl
  | cons b rest =>
    simp [recallsSpaced, isSleep2]

/-- An initial event before a 2-unit sleep never breaks the spacing. -/
theorem recallsSpaced_cons_sleep (a : Ev) (l : List Ev) :
    recallsSpaced (a :: Ev.sleepEv 2 :: l) =
      recallsSpaced (Ev.sleepEv 2 :: l) := by
  simp [recallsSpaced, isDetailsEv]

/-- The first pagination event is the details call with the start token. -/
theorem pageLoop_head (pid : String)
    (d : Option String → Except String DetailsPage) (f : Nat)
    (tok : Option String) :
    (pageLoop pid d (f + 1) tok).1.head? = some (Ev.detailsCall pid tok) := by
  rcases hd : d tok with e | page
  · simp [pageLoop, hd]
  · by_cases ht : truthy page.next_page_token <;> simp [pageLoop, hd, ht]

/-- The pagination trace satisfies the spacing invariant: re-calls are
always preceded by the fixed 2-unit sleep. -/
theorem pageLoop_spaced (pid : String)
    (d : Option String → Except String DetailsPage) :
    ∀ (f : Nat) (tok : Option String),
      recallsSpaced (pageLoop pid d f tok).1 = true := by
  intro f
  induction f with
  | zero => intro tok; rfl
  | succ f ih =>
    intro tok
    rcases hd : d tok with e | page
    · simp [pageLoop, hd, recallsSpaced]
    · by_cases ht : truthy page.next_page_token
      · simp only [pageLoop, hd, ht, if_true]
        rw [recallsSpaced_cons_sleep, recallsSpaced_sleep_cons]
        exact ih page.next_page_token
      · simp [pageLoop, hd, ht, recallsSpaced]

/-- C6: the pagination loop's first call carries no continuation token;
every re-call is immediately preceded by the fixed 2-unit sleep; a
response with a falsy token terminates the loop right after that single
call; if every response carries a truthy token the loop never terminates;
a successful loop's reviews are the flat concatenation of all pages'
reviews in order; and a business whose first (token-free) response has no
reviews and no token contributes exactly one call and an empty review
list. -/
theorem c6_pagination_loop (pid : String)
    (d : Option String → Except String DetailsPage) (f : Nat)
    (tok : Option String) (w : World) (p : PlaceResult) :
    ((pageLoop pid d (f + 1) tok).1.head? = some (Ev.detailsCall pid tok))
    ∧ (recallsSpaced (pageLoop pid d f tok).1 = true)
    ∧ (∀ page, d tok = .ok page → truthy page.next_page_token = false →
        pageLoop pid d (f + 1) tok =
          ([Ev.detailsCall pid tok], some (.ok [page])))
    ∧ (∀ f' : Nat,
        (∀ t, ∃ page, d t = .ok page ∧ truthy page.next_page_token = true) →
        (pageLoop pid d f' tok).2 = none)
    ∧ ((collectPlace w (f + 1) p).1.head? =
        some (Ev.detailsCall p.place_id none))
    ∧ (∀ (row : BusinessRow) (revs : List ReviewRow),
        (collectPlace w (f + 1) p).2 = some (.ok (row, revs)) →
        ∃ pages,
          (pageLoop p.place_id (w.placeDetails p.place_id) (f + 1) none).2 =
            some (.ok pages) ∧
          revs = (pages.flatMap (fun pg => pg.reviews)).map
            (mkReviewRow (mkBusinessRow p)))
    ∧ (∀ page, w.placeDetails p.place_id none = .ok page →
        truthy page.next_page_token = false → page.reviews = [] →
        collectPlace w (f + 1) p =
          ([Ev.detailsCall p.place_id none],
           some (.ok (mkBusinessRow p, [])))) := by
  refine ⟨pageLoop_head pid d f tok, pageLoop_spaced pid d f tok, ?_, ?_, ?_,
    ?_, ?_⟩
  · intro page hd ht
    simp [pageLoop, hd, ht]
  · intro f' hdiv
    induction f' generalizing tok with
    | zero => rfl
    | succ f'' ih =>
      obtain ⟨page, hd, ht⟩ := hdiv tok
      simp [pageLoop, hd, ht, ih]
  · exact pageLoop_head p.place_id (w.placeDetails p.place_id) f none
  · intro row revs h
    exact (collectPlace_ok w (f + 1) p row revs h).2
  · intro page hd ht hrev
    simp [collectPlace, pageLoop, hd, ht, hrev, Except.map]

/-- C6 witness: concrete two-page pagination starts token-free and spaces
its re-call with the 2-unit sleep; the always-token oracle never
terminates; a token-free empty first page yields one call and no reviews. -/
theorem c6_pagination_loop_witness :
    (pageLoop "p" dTwoPages 3 none).1.head? = some (Ev.detailsCall "p" none)
    ∧ recallsSpaced (pageLoop "p" dTwoPages 3 none).1 = true
    ∧ (pageLoop "p" dDiverge 5 none).2 = none
    ∧ collectPlace noReviewsWorld 1
        ⟨"pid1", some "Cafe A", some "Addr 1", some 4, some 10⟩ =
      ([Ev.detailsCall "pid1" none],
       some (.ok (⟨"Cafe A", some 4, 10, "Addr 1"⟩, []))) := by
  refine ⟨?_, ?_, ?_, ?_⟩
  · exact (c6_pagination_loop "p" dTwoPages 2 none noReviewsWorld
      ⟨"pid1", some "Cafe A", some "Addr 1", some 4, some 10⟩).1
  · exact (c6_pagination_loop "p" dTwoPages 3 none noReviewsWorld
      ⟨"pid1", some "Cafe A", some "Addr 1", some 4, some 10⟩).2.1
  · exact (c6_pagination_loop "p" dDiverge 0 none noReviewsWorld
      ⟨"pid1", some "Cafe A", some "Addr 1", some 4, some 10⟩).2.2.2.1 5
      (fun t => ⟨⟨[], some "t"⟩, rfl, by decide⟩)
  · exact (c6_pagination_loop "p" dTwoPages 0 none noReviewsWorld
      ⟨"pid1", some "Cafe A", some "Addr 1", some 4, some 10⟩).2.2.2.2.2.2
      ⟨[], none⟩ rfl rfl rfl

/-- C3 witness: the missing-credentials world does not diverge and exits
with status 1, via the characterization. -/
theorem c3_exit_status_characterization_witness :
    (runMain noCredsWorld 1).2 ≠ Outcome.outOfFuel
    ∧ (runMain noCredsWorld 1).2 = Outcome.exited 1 := by
  refine ⟨by decide, ?_⟩
  exact (c3_exit_status_characterization noCredsWorld 1 (by decide)).1.mpr
    (Or.inl (by decide))
